import Mathlib

/-! Package `tinge`: a fluent builder for styled terminal text.

Shallow embedding of `tinge.go` (package `tinge`) and of the `stripANSI` helper of
`tinge_test.go`.

Modelling conventions.

* A Go `string` is a Lean `String`; `[]string` is `List String`.
* A Go `int` is a Lean `Int`. The only arithmetic of the package is the increment of
  `pendingNewlines`, which counts `Newline()` calls; `Newline` takes it without wrap-around,
  `NewlineInt64` with the wrap-around of a 64-bit `int`; the two agree below `math.MaxInt64`.
* A run-time panic is `none`. `strings.Repeat` panics on a negative count; the definitions with
  the suffix `Alloc` let it panic as well on a count beyond the largest length the allocator
  grants; the two agree within that limit.
* A method with a pointer receiver that mutates the buffer is a function from the buffer before
  the call to the buffer after the call.
* `lipgloss.Style.Render` belongs to an external library. Every operation that renders takes the
  renderer as its first argument `R : Style → String → String`.
-/

namespace Tinge

/-! ## Standard library functions used by the package -/

/-- The string made of `n` copies of `s`. -/
def repeatString (s : String) : Nat → String
  | 0 => ""
  | n + 1 => s ++ repeatString s n

/-- Go `strings.Repeat(s, count)`: `count` copies of `s`; panics when `count` is negative. -/
def stringsRepeat (s : String) (count : Int) : Option String :=
  if count < 0 then none else some (repeatString s count.toNat)

/-- Go `strings.Join(elems, sep)`. -/
def stringsJoin : List String → String → String
  | [], _ => ""
  | [e], _ => e
  | e :: es, sep => es.foldl (fun b s => b ++ sep ++ s) e

/-! ## Styles

`TextStyle = lipgloss.Style`. The package sets three properties of a style only: the foreground
colour, bold and italic. A property is either unset (`none`) or set to a value. -/

/-- The properties of a `lipgloss.Style` that this package sets. -/
structure Style where
  foreground : Option String
  bold : Option Bool
  italic : Option Bool
deriving DecidableEq, Repr

/-- The style `lipgloss.NewStyle()`: no property is set. -/
def NewStyle : Style := ⟨none, none, none⟩

/-- Method `Style.Foreground(lipgloss.Color(c))`. -/
def Style.Foreground (s : Style) (c : String) : Style := { s with foreground := some c }

/-- Method `Style.Bold(v)`. -/
def Style.Bold (s : Style) (v : Bool) : Style := { s with bold := some v }

/-- Method `Style.Italic(v)`. -/
def Style.Italic (s : Style) (v : Bool) : Style := { s with italic := some v }

/-- Method `Style.Inherit(i)`, after the documentation of lipgloss: every value explicitly set in the
argument `i` is copied onto the receiver if it is not already explicitly set there; the values
the receiver has set are kept and not overwritten. -/
def Style.Inherit (s i : Style) : Style :=
  { foreground := if s.foreground.isSome then s.foreground else i.foreground
    bold := if s.bold.isSome then s.bold else i.bold
    italic := if s.italic.isSome then s.italic else i.italic }

def Grey : Style := NewStyle.Foreground "#909194"
def GreyDark : Style := NewStyle.Foreground "#454e6d"
def Green : Style := NewStyle.Foreground "#50FA7B"
def GreenLight : Style := NewStyle.Foreground "#3fed7b"
def GreenDark : Style := NewStyle.Foreground "#3C9258"
def Red : Style := NewStyle.Foreground "#ff5555"
def Pink : Style := NewStyle.Foreground "#ff79c6"
def Yellow : Style := NewStyle.Foreground "#f1fa8c"
def Blue : Style := NewStyle.Foreground "#a4ffff"
def BlueDark : Style := NewStyle.Foreground "#8be9fd"
def Bold : Style := NewStyle.Bold true
def Italic : Style := NewStyle.Italic true

/-! ## The buffer -/

/-- The struct `StyledText`. -/
structure StyledText where
  parts : List String
  currLine : String
  indent : Int
  pendingNewlines : Int
deriving DecidableEq, Repr

/-- The struct `StyledTextBuilder`. -/
structure StyledTextBuilder where
  parent : StyledText
  style : Style
deriving DecidableEq, Repr

/-- Function `Styled()`: the zero value of the struct. -/
def Styled : StyledText := ⟨[], "", 0, 0⟩

/-- The loop `for i := 0; i < s.pendingNewlines; i++ { s.parts = append(s.parts, "") }`, by the
number of iterations that remain. -/
def appendBlank : Nat → List String → List String
  | 0, parts => parts
  | n + 1, parts => appendBlank n (parts ++ [""])

/-- Method `(*StyledText).ensureLineStart`. -/
def StyledText.ensureLineStart (s : StyledText) : Option StyledText :=
  if s.pendingNewlines > 0 then
    let s1 : StyledText :=
      if s.currLine ≠ "" then { s with parts := s.parts ++ [s.currLine], currLine := "" } else s
    let s2 : StyledText := { s1 with parts := appendBlank s1.pendingNewlines.toNat s1.parts }
    let s3 : StyledText := { s2 with pendingNewlines := 0 }
    (stringsRepeat " " s3.indent).map fun line => { s3 with currLine := line }
  else some s

/-- Method `(*StyledText).With`. -/
def StyledText.With (s : StyledText) (styles : List Style) : StyledTextBuilder :=
  { parent := s, style := styles.foldl Style.Inherit NewStyle }

/-- Method `(*StyledTextBuilder).Text`. -/
def StyledTextBuilder.Text (R : Style → String → String) (b : StyledTextBuilder)
    (content : String) : Option StyledText :=
  b.parent.ensureLineStart.map fun p => { p with currLine := p.currLine ++ R b.style content }

/-- Method `(*StyledText).Space`; the variadic argument is the list `n`. -/
def StyledText.Space (s : StyledText) (n : List Int) : Option StyledText :=
  s.ensureLineStart.bind fun s1 =>
    match n with
    | n0 :: _ => (stringsRepeat " " n0).map fun sp => { s1 with currLine := s1.currLine ++ sp }
    | [] => some { s1 with currLine := s1.currLine ++ " " }

/-- Method `(*StyledText).Newline`. -/
def StyledText.Newline (s : StyledText) : StyledText :=
  let s1 : StyledText :=
    if s.currLine ≠ "" then { s with parts := s.parts ++ [s.currLine], currLine := "" } else s
  { s1 with pendingNewlines := s1.pendingNewlines + 1 }

/-- Method `(*StyledText).Indent`. -/
def StyledText.Indent (s : StyledText) (spaces : Int) : StyledText :=
  { s with indent := spaces }

/-- Method `(*StyledText).Text`. -/
def StyledText.Text (R : Style → String → String) (s : StyledText) (text : String) :
    Option StyledText :=
  s.ensureLineStart.bind fun s1 => (s1.With []).Text R text

def StyledText.Grey (R : Style → String → String) (s : StyledText) (text : String) :=
  (s.With [Tinge.Grey]).Text R text

def StyledText.GreyDark (R : Style → String → String) (s : StyledText) (text : String) :=
  (s.With [Tinge.GreyDark]).Text R text

def StyledText.Red (R : Style → String → String) (s : StyledText) (text : String) :=
  (s.With [Tinge.Red]).Text R text

def StyledText.Green (R : Style → String → String) (s : StyledText) (text : String) :=
  (s.With [Tinge.Green]).Text R text

def StyledText.GreenLight (R : Style → String → String) (s : StyledText) (text : String) :=
  (s.With [Tinge.GreenLight]).Text R text

def StyledText.GreenDark (R : Style → String → String) (s : StyledText) (text : String) :=
  (s.With [Tinge.GreenDark]).Text R text

def StyledText.Pink (R : Style → String → String) (s : StyledText) (text : String) :=
  (s.With [Tinge.Pink]).Text R text

def StyledText.Yellow (R : Style → String → String) (s : StyledText) (text : String) :=
  (s.With [Tinge.Yellow]).Text R text

def StyledText.Blue (R : Style → String → String) (s : StyledText) (text : String) :=
  (s.With [Tinge.Blue]).Text R text

def StyledText.BlueDark (R : Style → String → String) (s : StyledText) (text : String) :=
  (s.With [Tinge.BlueDark]).Text R text

def StyledText.Bold (R : Style → String → String) (s : StyledText) (text : String) :=
  (s.With [Tinge.Bold]).Text R text

def StyledText.Italic (R : Style → String → String) (s : StyledText) (text : String) :=
  (s.With [Tinge.Italic]).Text R text

def StyledText.BoldItalic (R : Style → String → String) (s : StyledText) (text : String) :=
  (s.With [Tinge.Bold, Tinge.Italic]).Text R text

/-! ## The counter and the allocation of the machine

The definitions above take `pendingNewlines` as an integer without bound and let
`strings.Repeat` return for every non-negative count. The definitions of this section follow
the machine: a Go `int` has 64 bits and `s.pendingNewlines++` wraps around; `strings.Repeat`
allocates its result and panics (`makeslice: len out of range`) when the length is beyond the
largest length the allocator grants, a constant of the platform that is the parameter
`limit`. -/

/-- The largest Go `int` (64 bits), `math.MaxInt64`. -/
def maxInt64 : Int := 9223372036854775807

/-- The smallest Go `int` (64 bits), `math.MinInt64`. -/
def minInt64 : Int := -9223372036854775808

/-- The Go `int` (64 bits, two's complement) that holds the integer `x` after wrap-around. -/
def wrapInt64 (x : Int) : Int :=
  (x + 9223372036854775808) % 18446744073709551616 - 9223372036854775808

/-- Go `strings.Repeat(s, count)` with the allocation of its result: panics when `count` is
negative and when the length of the result, `len(s) * count` bytes, is beyond `limit`. -/
def stringsRepeatAlloc (limit : Nat) (s : String) (count : Int) : Option String :=
  if count < 0 then none
  else if limit < s.utf8ByteSize * count.toNat then none
  else some (repeatString s count.toNat)

/-- Method `(*StyledText).ensureLineStart`, with the allocation of `strings.Repeat`. -/
def StyledText.ensureLineStartAlloc (limit : Nat) (s : StyledText) : Option StyledText :=
  if s.pendingNewlines > 0 then
    let s1 : StyledText :=
      if s.currLine ≠ "" then { s with parts := s.parts ++ [s.currLine], currLine := "" } else s
    let s2 : StyledText := { s1 with parts := appendBlank s1.pendingNewlines.toNat s1.parts }
    let s3 : StyledText := { s2 with pendingNewlines := 0 }
    (stringsRepeatAlloc limit " " s3.indent).map fun line => { s3 with currLine := line }
  else some s

/-- Method `(*StyledTextBuilder).Text`, with the allocation of `strings.Repeat`. -/
def StyledTextBuilder.TextAlloc (limit : Nat) (R : Style → String → String)
    (b : StyledTextBuilder) (content : String) : Option StyledText :=
  (b.parent.ensureLineStartAlloc limit).map fun p =>
    { p with currLine := p.currLine ++ R b.style content }

/-- Method `(*StyledText).Space`, with the allocation of `strings.Repeat`. -/
def StyledText.SpaceAlloc (limit : Nat) (s : StyledText) (n : List Int) : Option StyledText :=
  (s.ensureLineStartAlloc limit).bind fun s1 =>
    match n with
    | n0 :: _ =>
      (stringsRepeatAlloc limit " " n0).map fun sp => { s1 with currLine := s1.currLine ++ sp }
    | [] => some { s1 with currLine := s1.currLine ++ " " }

/-- Method `(*StyledText).Newline`, with the counter of the machine. -/
def StyledText.NewlineInt64 (s : StyledText) : StyledText :=
  let s1 : StyledText :=
    if s.currLine ≠ "" then { s with parts := s.parts ++ [s.currLine], currLine := "" } else s
  { s1 with pendingNewlines := wrapInt64 (s1.pendingNewlines + 1) }

/-- Method `(*StyledText).Text`, with the allocation of `strings.Repeat`. -/
def StyledText.TextAlloc (limit : Nat) (R : Style → String → String) (s : StyledText)
    (text : String) : Option StyledText :=
  (s.ensureLineStartAlloc limit).bind fun s1 => (s1.With []).TextAlloc limit R text

/-- Method `(*StyledText).String`, with the allocation of `strings.Repeat`. -/
def StyledText.StringAlloc (limit : Nat) (s : StyledText) : Option (String × StyledText) :=
  (s.ensureLineStartAlloc limit).map fun s1 =>
    let s2 : StyledText :=
      if s1.currLine ≠ "" then { s1 with parts := s1.parts ++ [s1.currLine], currLine := "" }
      else s1
    (stringsJoin s2.parts "\n", s2)

/-! ## Flattening -/

/-- Method `(*StyledText).String`: the returned string and the buffer after the call. -/
def StyledText.String (s : StyledText) : Option (String × StyledText) :=
  s.ensureLineStart.map fun s1 =>
    let s2 : StyledText :=
      if s1.currLine ≠ "" then { s1 with parts := s1.parts ++ [s1.currLine], currLine := "" }
      else s1
    (stringsJoin s2.parts "\n", s2)

/-! ## Call chains -/

/-- One call of the fluent interface on the buffer. -/
inductive Op where
  | text (t : String)
  | withText (styles : List Style) (t : String)
  | space (n : List Int)
  | newline
  | indent (spaces : Int)
  | string
deriving DecidableEq, Repr

/-- The buffer after one call; the string returned by `String()` is dropped. -/
def Op.apply (R : Style → String → String) (s : StyledText) : Op → Option StyledText
  | .text t => s.Text R t
  | .withText styles t => (s.With styles).Text R t
  | .space n => s.Space n
  | .newline => some s.Newline
  | .indent spaces => some (s.Indent spaces)
  | .string => s.String.map Prod.snd

/-- The buffer after a chain of calls, from left to right. -/
def run (R : Style → String → String) : List Op → StyledText → Option StyledText
  | [], s => some s
  | op :: ops, s => (op.apply R s).bind (run R ops)

/-- The string returned by `String()` at the end of a chain of calls on the buffer `s`. -/
def outputFrom (R : Style → String → String) (s : StyledText) (ops : List Op) : Option String :=
  (run R ops s).bind fun s1 => s1.String.map Prod.fst

/-- The string returned by `Styled().<ops>.String()`. -/
def output (R : Style → String → String) (ops : List Op) : Option String :=
  outputFrom R Styled ops

/-- A renderer that returns the text unchanged, whatever the style. -/
def plainRender : Style → String → String := fun _ t => t

/-- The string made of `n` space characters. -/
def spaces (n : Nat) : String := String.mk (List.replicate n ' ')

/-- The string made of `n` line separators. -/
def seps (n : Nat) : String := String.mk (List.replicate n '\n')

/-- The concatenation of a list of strings, in order. -/
def concatAll : List String → String
  | [] => ""
  | x :: xs => x ++ concatAll xs

/-- The characters a call adds to the line in progress when rendering leaves the text unchanged:
the text of `Text` and `With(...).Text`, the run of spaces of `Space`. -/
def Op.literal : Op → String
  | .text t => t
  | .withText _ t => t
  | .space (n :: _) => spaces n.toNat
  | .space [] => " "
  | _ => ""

/-- The call is `Text(t)`, `Space()` or `Space(n)` with `n ≥ 0`. -/
def Op.isTextOrSpace : Op → Bool
  | .text _ => true
  | .space (n :: _) => decide (0 ≤ n)
  | .space [] => true
  | _ => false

/-! ## The test helper `stripANSI`

`stripANSI` replaces every match of the regular expression `\x1b\[[0-9;]*[a-zA-Z]` by the empty
string. The classes `[0-9;]` and `[a-zA-Z]` are disjoint, so the expression matches at a position
exactly when the two characters there are ESC and `[` and the longest run of `[0-9;]` that
follows is followed by a letter; the match is then unique. -/

/-- The class `[0-9;]`. -/
def isParamChar (c : Char) : Bool :=
  (decide ('0'.toNat ≤ c.toNat) && decide (c.toNat ≤ '9'.toNat)) || c == ';'

/-- The class `[a-zA-Z]`. -/
def isLetter (c : Char) : Bool :=
  (decide ('a'.toNat ≤ c.toNat) && decide (c.toNat ≤ 'z'.toNat)) ||
    (decide ('A'.toNat ≤ c.toNat) && decide (c.toNat ≤ 'Z'.toNat))

/-- The length of the match of `\x1b\[[0-9;]*[a-zA-Z]` at the head of the characters, if there
is one. -/
def matchLen : List Char → Option Nat
  | c0 :: c1 :: rest =>
    if c0 = '\x1b' ∧ c1 = '[' then
      match rest.dropWhile isParamChar with
      | l :: _ => if isLetter l then some ((rest.takeWhile isParamChar).length + 3) else none
      | [] => none
    else none
  | _ => none

/-- The call `ReplaceAllString(s, "")`, left to right: `stripChars k cs` drops the `k` characters that
remain of the current match, then copies the characters up to the next match. -/
def stripChars : Nat → List Char → List Char
  | _, [] => []
  | k + 1, _ :: cs => stripChars k cs
  | 0, c :: cs =>
    match matchLen (c :: cs) with
    | some len => stripChars (len - 1) cs
    | none => c :: stripChars 0 cs

/-- Function `stripANSI` of `tinge_test.go`. -/
def stripANSI (s : String) : String := String.mk (stripChars 0 s.data)

/-- A run of complete escape sequences `ESC [ params letter`. -/
inductive Decoration : List Char → Prop where
  | nil : Decoration []
  | csi (ps : List Char) (l : Char) (rest : List Char) :
      (∀ c ∈ ps, isParamChar c = true) → isLetter l = true → Decoration rest →
      Decoration ('\x1b' :: '[' :: (ps ++ l :: rest))

/-- The renderer wraps the text `t` under the style `st` between two runs of complete escape
sequences, and renders the empty text as the empty string. -/
def WrapsInANSI (R : Style → String → String) (st : Style) (t : String) : Prop :=
  ∃ pre post : List Char, Decoration pre ∧ Decoration post ∧
    (R st t).data = pre ++ t.data ++ post ∧ (t = "" → R st t = "")

/-- The style and the text that a call renders, if it renders one. -/
def Op.rendered : Op → Option (Style × String)
  | .text t => some (NewStyle, t)
  | .withText styles t => some (styles.foldl Style.Inherit NewStyle, t)
  | _ => none

/-- Modelled from the spec: the external style renderer (`lipgloss.Style.Render`, not part of
this repository), which wraps the content with the escape sequences that express the attributes
on a terminal and leaves the literal text unchanged otherwise. Under a style that sets a
property, the text is preceded by one select-graphic-rendition sequence for each property set
and followed by the reset sequence; under the empty style the text is returned as it is. -/
def ansiRender (st : Style) (t : String) : String :=
  if st = NewStyle then t
  else
    (if st.bold.isSome then "\x1b[1m" else "") ++ (if st.italic.isSome then "\x1b[3m" else "") ++
      (if st.foreground.isSome then "\x1b[38;5;9m" else "") ++ t ++ "\x1b[0m"

/-- The text of the call, if it renders one, holds no ESC character. -/
def Op.escFree (op : Op) : Bool :=
  match op.rendered with
  | some (_, t) => decide ('\x1b' ∉ t.data)
  | none => true

/-- Stripping `x` in front of any characters gives `y` followed by the stripping of those
characters, and `x` is empty exactly when `y` is. -/
def StripsTo (x y : String) : Prop :=
  (∀ cs, stripChars 0 (x.data ++ cs) = y.data ++ stripChars 0 cs) ∧ (x = "" ↔ y = "")

/-- The buffer `a`, built with some renderer, against the buffer `b`, built by the same calls
with the renderer that leaves the text unchanged: line by line `a` strips to `b`, and the
counters agree. -/
def Sim (a b : StyledText) : Prop :=
  List.Forall₂ StripsTo a.parts b.parts ∧ StripsTo a.currLine b.currLine ∧
    a.indent = b.indent ∧ a.pendingNewlines = b.pendingNewlines

/-- The relation `Sim` on the results of two calls: both panic, or both return and the buffers are related. -/
def SimOpt : Option StyledText → Option StyledText → Prop
  | some a, some b => Sim a b
  | none, none => True
  | _, _ => False

/-- The arguments of the call are non-negative: `Space(n)` with `n ≥ 0`, `Indent(w)` with
`w ≥ 0`; the other calls take no number. -/
def Op.nonnegArgs : Op → Bool
  | .space (n :: _) => decide (0 ≤ n)
  | .indent w => decide (0 ≤ w)
  | _ => true

/-- The call appends content to the current line: `Text`, `With(...).Text` (the colour and
weight shortcuts are of this form) and `Space`. -/
def Op.isAppend : Op → Bool
  | .text _ => true
  | .withText _ _ => true
  | .space _ => true
  | _ => false

/-- The characters the call appends to the current line under the renderer `R`. -/
def Op.content (R : Style → String → String) : Op → String
  | .text t => R NewStyle t
  | .withText styles t => R (styles.foldl Style.Inherit NewStyle) t
  | .space n => (Op.space n).literal
  | _ => ""

/-- The condition under which `ensureLineStart` runs its inner branch
`if s.currLine != "" { ... }`: newlines are pending and the current line is not empty. -/
def StyledText.flushesInResolution (s : StyledText) : Bool :=
  decide (0 < s.pendingNewlines) && decide (s.currLine ≠ "")

/-- The chain of the second example of the package documentation (`doc.go`), before `Write()`. -/
def projectStatusExample : List Op :=
  [Op.withText [Bold] "Project Status:", Op.newline, Op.indent 2,
   Op.withText [Green] "✓ ", Op.text "Tests passing", Op.newline, Op.indent 2,
   Op.withText [Red] "✗ ", Op.text "Build failed", Op.newline, Op.indent 2,
   Op.withText [Yellow] "⚠ ", Op.text "Warnings found"]

/-- The output that the package documentation (`doc.go`) shows for the second example. -/
def projectStatusDocumented : String :=
  "Project Status:\n  ✓ Tests passing\n  ✗ Build failed\n  ⚠ Warnings found"

/-! ## Rendering of a tab

`lipgloss.Style.Render` converts tabs before it applies a style; the default tab width is 4. -/

/-- The conversion of tabs of `lipgloss.Style.Render`, after the documentation of lipgloss
(`Style.TabWidth`, default 4): every tab character becomes four spaces. -/
def convertTabs (t : String) : String :=
  String.mk (t.data.flatMap fun c => if c = '\t' then [' ', ' ', ' ', ' '] else [c])

/-- The renderer `lipgloss.Style.Render` on an output without colour, after the documentation
of lipgloss: no escape sequence is written and tabs are converted to four spaces. -/
def tabRender : Style → String → String := fun _ t => convertTabs t

/-- The buffer after one call, with the counter and the allocation of the machine. -/
def Op.applyMachine (limit : Nat) (R : Style → String → String) (s : StyledText) :
    Op → Option StyledText
  | .text t => s.TextAlloc limit R t
  | .withText styles t => (s.With styles).TextAlloc limit R t
  | .space n => s.SpaceAlloc limit n
  | .newline => some s.NewlineInt64
  | .indent spaces => some (s.Indent spaces)
  | .string => (s.StringAlloc limit).map Prod.snd

/-- The count of `Space(n)` is within the allocation limit. -/
def Op.withinLimit (limit : Nat) : Op → Bool
  | .space (n :: _) => decide (n ≤ (limit : Int))
  | _ => true

/-- The output of the documented `Project Status` example as the code produces it. -/
def projectStatusOutput : String :=
  "Project Status:\n\n  ✓ Tests passing\n\n  ✗ Build failed\n\n  ⚠ Warnings found"

/-! ## Strings -/

theorem str_append_eq_empty (a b : String) : a ++ b = "" ↔ a = "" ∧ b = "" := by
  simp [String.ext_iff]

theorem str_append_assoc (a b c : String) : a ++ b ++ c = a ++ (b ++ c) := by
  simp [String.ext_iff]

theorem spaces_zero : spaces 0 = "" := rfl

theorem spaces_eq_empty (n : Nat) : spaces n = "" ↔ n = 0 := by
  cases n <;> simp [spaces, String.ext_iff, List.replicate_succ]

theorem repeatString_space (n : Nat) : repeatString " " n = spaces n := by
  induction n with
  | zero => rfl
  | succ n ih =>
    rw [repeatString, ih]
    simp [spaces, String.ext_iff, List.replicate_succ]

theorem stringsRepeat_of_nonneg (c : Int) (h : 0 ≤ c) :
    stringsRepeat " " c = some (spaces c.toNat) := by
  simp [stringsRepeat, not_lt.mpr h, repeatString_space]

theorem stringsRepeat_of_neg (s : String) (c : Int) (h : c < 0) : stringsRepeat s c = none := by
  simp [stringsRepeat, h]

theorem seps_succ (n : Nat) : seps (n + 1) = seps n ++ "\n" := by
  simp [seps, String.ext_iff, List.replicate_succ']

theorem appendBlank_eq (n : Nat) (parts : List String) :
    appendBlank n parts = parts ++ List.replicate n "" := by
  induction n generalizing parts with
  | zero => simp [appendBlank]
  | succ n ih => simp [appendBlank, ih, List.replicate_succ]

theorem stringsJoin_cons (e : String) (es : List String) (sep : String) :
    stringsJoin (e :: es) sep = es.foldl (fun b s => b ++ sep ++ s) e := by
  cases es <;> rfl

theorem stringsJoin_append_singleton (l : List String) (x sep : String) (h : l ≠ []) :
    stringsJoin (l ++ [x]) sep = stringsJoin l sep ++ sep ++ x := by
  cases l with
  | nil => exact absurd rfl h
  | cons e es => rw [List.cons_append, stringsJoin_cons, stringsJoin_cons, List.foldl_append]; rfl

theorem stringsJoin_append_blank (l : List String) (n : Nat) (h : l ≠ []) :
    stringsJoin (l ++ List.replicate n "") "\n" = stringsJoin l "\n" ++ seps n := by
  induction n with
  | zero => simp [seps, String.ext_iff]
  | succ n ih =>
    rw [List.replicate_succ', ← List.append_assoc,
      stringsJoin_append_singleton _ _ _ (by simp [h]), ih, seps_succ]
    simp [String.ext_iff]

/-! ## Resolution of the pending line start -/

theorem ensureLineStart_of_not_pos (s : StyledText) (h : s.pendingNewlines ≤ 0) :
    s.ensureLineStart = some s := by
  simp [StyledText.ensureLineStart, not_lt.mpr h]

theorem ensureLineStart_of_pos (s : StyledText) (h : 0 < s.pendingNewlines)
    (hi : 0 ≤ s.indent) :
    s.ensureLineStart = some
      { parts := (if s.currLine ≠ "" then s.parts ++ [s.currLine] else s.parts) ++
          List.replicate s.pendingNewlines.toNat ""
        currLine := spaces s.indent.toNat
        indent := s.indent
        pendingNewlines := 0 } := by
  by_cases hc : s.currLine = "" <;>
    simp [StyledText.ensureLineStart, h, hc, appendBlank_eq, stringsRepeat_of_nonneg _ hi]

theorem ensureLineStart_panics (s : StyledText) (h : 0 < s.pendingNewlines)
    (hi : s.indent < 0) : s.ensureLineStart = none := by
  by_cases hc : s.currLine = "" <;>
    simp [StyledText.ensureLineStart, h, hc, stringsRepeat_of_neg _ _ hi]

theorem ensureLineStart_pending (s r : StyledText) (h : s.ensureLineStart = some r) :
    r.pendingNewlines ≤ 0 := by
  by_cases hp : 0 < s.pendingNewlines
  · by_cases hi : 0 ≤ s.indent
    · rw [ensureLineStart_of_pos s hp hi] at h
      cases h; simp
    · rw [ensureLineStart_panics s hp (not_le.mp hi)] at h
      cases h
  · rw [ensureLineStart_of_not_pos s (not_lt.mp hp)] at h
    cases h; exact not_lt.mp hp

theorem ensureLineStart_idem (s r : StyledText) (h : s.ensureLineStart = some r) :
    r.ensureLineStart = some r :=
  ensureLineStart_of_not_pos r (ensureLineStart_pending s r h)

theorem ensureLineStart_isSome (s : StyledText) (h : s.pendingNewlines ≤ 0 ∨ 0 ≤ s.indent) :
    ∃ r, s.ensureLineStart = some r := by
  by_cases hp : 0 < s.pendingNewlines
  · rcases h with h | h
    · omega
    · exact ⟨_, ensureLineStart_of_pos s hp h⟩
  · exact ⟨s, ensureLineStart_of_not_pos s (not_lt.mp hp)⟩

theorem Text_eq (R : Style → String → String) (s : StyledText) (t : String) :
    s.Text R t = s.ensureLineStart.map fun r =>
      { r with currLine := r.currLine ++ R NewStyle t } := by
  cases h : s.ensureLineStart with
  | none => simp [StyledText.Text, h]
  | some r =>
    simp [StyledText.Text, h, StyledTextBuilder.Text, StyledText.With,
      ensureLineStart_idem s r h]

theorem run_append (R : Style → String → String) (a b : List Op) (s : StyledText) :
    run R (a ++ b) s = (run R a s).bind (run R b) := by
  induction a generalizing s with
  | nil => simp [run]
  | cons op a ih =>
    simp only [List.cons_append, run]
    cases h : op.apply R s with
    | none => simp
    | some r => simp [ih]

theorem Newline_of_empty (s : StyledText) (h : s.currLine = "") :
    s.Newline = { s with pendingNewlines := s.pendingNewlines + 1 } := by
  simp [StyledText.Newline, h]

theorem Newline_of_nonempty (s : StyledText) (h : s.currLine ≠ "") :
    s.Newline = { parts := s.parts ++ [s.currLine], currLine := "", indent := s.indent,
                  pendingNewlines := s.pendingNewlines + 1 } := by
  simp [StyledText.Newline, h]

theorem run_newlines (R : Style → String → String) (k : Nat) (rest : List Op) (s : StyledText)
    (h : s.currLine = "") :
    run R (List.replicate k Op.newline ++ rest) s =
      run R rest { s with pendingNewlines := s.pendingNewlines + k } := by
  induction k generalizing s with
  | zero => simp
  | succ k ih =>
    rw [List.replicate_succ, List.cons_append]
    show run R (List.replicate k Op.newline ++ rest) s.Newline = _
    rw [Newline_of_empty s h, ih { s with pendingNewlines := s.pendingNewlines + 1 } h]
    simp only [Nat.cast_add, Nat.cast_one]
    congr 2
    omega

theorem String_of_resolved (s : StyledText) (h : s.pendingNewlines ≤ 0) :
    s.String = some
      (stringsJoin (if s.currLine ≠ "" then s.parts ++ [s.currLine] else s.parts) "\n",
        { s with parts := if s.currLine ≠ "" then s.parts ++ [s.currLine] else s.parts,
                 currLine := "" }) := by
  rw [StyledText.String, ensureLineStart_of_not_pos s h]
  cases s with
  | mk parts currLine indent pendingNewlines =>
    by_cases hc : currLine = "" <;> simp [hc]

/-- After a line `A` has been completed and `k ≥ 1` newlines are pending, content `X`
appended under indent `n` flattens to `A`, `k + 1` separators, the indent and `X`, provided the
new line is not empty. -/
theorem outputFrom_pending (R : Style → String → String) (A X : String) (k n : Nat)
    (hk : 1 ≤ k) (hX : spaces n ++ X ≠ "") (hR : R NewStyle X = X) :
    outputFrom R ⟨[A], "", n, k⟩ [Op.text X] = some (A ++ seps (k + 1) ++ (spaces n ++ X)) := by
  have hp : (0 : Int) < ((⟨[A], "", n, k⟩ : StyledText)).pendingNewlines := by
    show (0 : Int) < (k : Int)
    omega
  have hi : (0 : Int) ≤ ((⟨[A], "", n, k⟩ : StyledText)).indent := by
    show (0 : Int) ≤ (n : Int)
    omega
  simp only [outputFrom, run, Op.apply, Text_eq, ensureLineStart_of_pos _ hp hi, Option.map_some',
    Option.some_bind, hR]
  rw [String_of_resolved _ (le_refl _)]
  simp only [Option.map_some', ne_eq, not_true_eq_false, if_false, Int.toNat_ofNat, hX,
    not_false_eq_true, if_true]
  rw [stringsJoin_append_singleton _ _ _ (by simp), stringsJoin_append_blank _ _ (by simp),
    seps_succ]
  simp [stringsJoin, str_append_assoc]

theorem outputFrom_append (R : Style → String → String) (a b : List Op) (s : StyledText) :
    outputFrom R s (a ++ b) = (run R a s).bind fun r => outputFrom R r b := by
  simp only [outputFrom, run_append]
  cases run R a s <;> simp

theorem outputFrom_nil (R : Style → String → String) (s : StyledText) :
    outputFrom R s [] = s.String.map Prod.fst := by
  simp [outputFrom, run]

theorem Text_of_resolved (R : Style → String → String) (s : StyledText) (t : String)
    (h : s.pendingNewlines ≤ 0) :
    s.Text R t = some { s with currLine := s.currLine ++ R NewStyle t } := by
  rw [Text_eq, ensureLineStart_of_not_pos s h]
  rfl

theorem Text_fresh (R : Style → String → String) (t : String) :
    Styled.Text R t = some ⟨[], R NewStyle t, 0, 0⟩ := by
  rw [Text_of_resolved R Styled t (le_refl _)]
  simp [Styled]

/-! ## C1 -/

/-- C1, as stated, fails for an empty second text: `Text("a").Newline().Text("")` flattens to
`"a\n"`, one separator, where the claim gives `k + 1 = 2` separators. -/
theorem C1_counterexample :
    output plainRender ([Op.text "a"] ++ List.replicate 1 Op.newline ++ [Op.text ""]) =
        some "a\n" ∧
      output plainRender ([Op.text "a"] ++ List.replicate 1 Op.newline ++ [Op.text ""]) ≠
        some ("a" ++ seps (1 + 1) ++ "") := by
  decide

/-- C1 (amended): for every `k ≥ 1` and all non-empty texts `A` and `B` that the renderer leaves
unchanged under the empty style, `Styled().Text(A)`, `k` calls of `Newline()`, `Text(B)` and
`String()` return `A`, then exactly `k + 1` separators, then `B`. -/
theorem C1_newlines_between_texts (R : Style → String → String) (k : Nat) (A B : String)
    (hk : 1 ≤ k) (hA : A ≠ "") (hB : B ≠ "") (hRA : R NewStyle A = A) (hRB : R NewStyle B = B) :
    output R ([Op.text A] ++ List.replicate k Op.newline ++ [Op.text B]) =
      some (A ++ seps (k + 1) ++ B) := by
  obtain ⟨j, rfl⟩ : ∃ j, k = j + 1 := ⟨k - 1, by omega⟩
  have h1 : run R [Op.text A] Styled = some ⟨[], A, 0, 0⟩ := by
    simp [run, Op.apply, Text_fresh, hRA]
  have h2 : run R (List.replicate (j + 1) Op.newline) ⟨[], A, 0, 0⟩ =
      some ⟨[A], "", ((0 : Nat) : Int), ((j + 1 : Nat) : Int)⟩ := by
    have := run_newlines R j [] (StyledText.Newline ⟨[], A, 0, 0⟩)
      (by simp [StyledText.Newline, hA])
    rw [List.replicate_succ]
    simp only [List.append_nil] at this
    simp only [run, Op.apply, Option.some_bind, this]
    simp [StyledText.Newline, hA, run, add_comm]
  have hX : spaces 0 ++ B ≠ "" := by simp [str_append_eq_empty, hB]
  rw [output, outputFrom_append, run_append, h1, Option.some_bind, h2, Option.some_bind,
    outputFrom_pending R A B (j + 1) 0 (by omega) hX hRB]
  simp [spaces_zero]

/-- C1, witness: `Text("line1").Newline().Newline().Text("line3")`. -/
theorem C1_newlines_between_texts_witness :
    output plainRender ([Op.text "line1"] ++ List.replicate 2 Op.newline ++ [Op.text "line3"]) =
      some ("line1" ++ seps (2 + 1) ++ "line3") :=
  C1_newlines_between_texts plainRender 2 "line1" "line3" (by decide) (by decide) (by decide)
    rfl rfl

/-! ## C2 -/

/-- C2, as stated, fails in two ways. For indent 0 and an empty text,
`Text("h").Newline().Indent(0).Text("")` flattens to `"h\n"`, not to `"h\n\n"`. Under a renderer
that converts tabs, as lipgloss does, `Text("h\t").Newline().Indent(1).Text("x")` flattens to
`h`, four spaces, two separators, one space and `x`: the tab of the text is not kept. -/
theorem C2_counterexample :
    (output plainRender [Op.text "h", Op.newline, Op.indent 0, Op.text ""] = some "h\n" ∧
      output plainRender [Op.text "h", Op.newline, Op.indent 0, Op.text ""] ≠
        some ("h" ++ "\n\n" ++ spaces (0 : Int).toNat ++ "")) ∧
    (output tabRender [Op.text "h\t", Op.newline, Op.indent 1, Op.text "x"] =
        some "h    \n\n x" ∧
      output tabRender [Op.text "h\t", Op.newline, Op.indent 1, Op.text "x"] ≠
        some ("h\t" ++ "\n\n" ++ spaces (1 : Int).toNat ++ "x")) := by
  decide

/-- C2 (amended): for every `n ≥ 0`, every non-empty `H` and every `X` with `n > 0` or `X`
non-empty, both texts left unchanged by the renderer under the empty style,
`Styled().Text(H).Newline().Indent(n).Text(X).String()` is `H`, two separators, `n` spaces
and `X`. -/
theorem C2_indent_after_newline (R : Style → String → String) (n : Int) (H X : String)
    (hn : 0 ≤ n) (hH : H ≠ "") (hX : 0 < n ∨ X ≠ "") (hRH : R NewStyle H = H)
    (hRX : R NewStyle X = X) :
    output R [Op.text H, Op.newline, Op.indent n, Op.text X] =
      some (H ++ "\n\n" ++ spaces n.toNat ++ X) := by
  obtain ⟨m, rfl⟩ : ∃ m : Nat, n = (m : Int) := ⟨n.toNat, (Int.toNat_of_nonneg hn).symm⟩
  have h1 : run R [Op.text H, Op.newline, Op.indent (m : Int)] Styled =
      some ⟨[H], "", (m : Int), ((1 : Nat) : Int)⟩ := by
    simp [run, Op.apply, Text_fresh, hRH, StyledText.Newline, hH, StyledText.Indent]
  have hX2 : spaces m ++ X ≠ "" := by
    rw [Ne, str_append_eq_empty, spaces_eq_empty]
    rintro ⟨rfl, rfl⟩
    simp at hX
  have := outputFrom_append R [Op.text H, Op.newline, Op.indent (m : Int)] [Op.text X] Styled
  simp only [List.cons_append, List.nil_append] at this
  rw [output, this, h1, Option.some_bind, outputFrom_pending R H X 1 m (le_refl _) hX2 hRX]
  simp [seps, String.ext_iff, List.replicate_succ]

/-- C2, witness: `Text("header").Newline().Indent(2).Text("indented")`. -/
theorem C2_indent_after_newline_witness :
    output plainRender [Op.text "header", Op.newline, Op.indent 2, Op.text "indented"] =
      some ("header" ++ "\n\n" ++ spaces (2 : Int).toNat ++ "indented") :=
  C2_indent_after_newline plainRender 2 "header" "indented" (by decide) (by decide)
    (Or.inl (by decide)) rfl rfl

theorem Space_of_resolved (s : StyledText) (n : List Int) (h : s.pendingNewlines ≤ 0)
    (hn : ∀ n0 ∈ n.head?, (0 : Int) ≤ n0) :
    s.Space n = some { s with currLine := s.currLine ++ (Op.space n).literal } := by
  rw [StyledText.Space, ensureLineStart_of_not_pos s h]
  cases n with
  | nil => rfl
  | cons n0 rest =>
    have h0 : (0 : Int) ≤ n0 := hn n0 (by simp)
    simp [stringsRepeat_of_nonneg n0 h0, Op.literal]

theorem run_texts_and_spaces (R : Style → String → String) (ops : List Op) (s : StyledText)
    (hp : s.pendingNewlines ≤ 0) (hops : ∀ op ∈ ops, op.isTextOrSpace = true)
    (hR : ∀ t, Op.text t ∈ ops → R NewStyle t = t) :
    run R ops s = some { s with currLine := s.currLine ++ concatAll (ops.map Op.literal) } := by
  induction ops generalizing s with
  | nil =>
    cases s
    simp [run, concatAll]
  | cons op ops ih =>
    have hrest : ∀ o ∈ ops, o.isTextOrSpace = true := fun o ho => hops o (List.mem_cons_of_mem _ ho)
    have hRrest : ∀ t, Op.text t ∈ ops → R NewStyle t = t :=
      fun t ht => hR t (List.mem_cons_of_mem _ ht)
    have hop := hops op (List.mem_cons_self _ _)
    cases op with
    | text t =>
      have ht := hR t (List.mem_cons_self _ _)
      simp only [run, Op.apply, Text_of_resolved R s t hp, Option.some_bind, ht]
      rw [ih { s with currLine := s.currLine ++ t } hp hrest hRrest]
      simp [concatAll, Op.literal, str_append_assoc]
    | space n =>
      have hn : ∀ n0 ∈ n.head?, (0 : Int) ≤ n0 := by
        cases n with
        | nil => simp
        | cons n0 rest => simpa [Op.isTextOrSpace] using hop
      simp only [run, Op.apply, Space_of_resolved s n hp hn, Option.some_bind]
      rw [ih { s with currLine := s.currLine ++ (Op.space n).literal } hp hrest hRrest]
      simp [concatAll, str_append_assoc]
    | withText styles t => simp [Op.isTextOrSpace] at hop
    | newline => simp [Op.isTextOrSpace] at hop
    | indent n => simp [Op.isTextOrSpace] at hop
    | string => simp [Op.isTextOrSpace] at hop

/-! ## C3 -/

/-- C3, as stated, fails for a text that the renderer changes: under a renderer that converts
tabs, as lipgloss does, `Text("a\tb").String()` is `a`, four spaces and `b`, not the text. -/
theorem C3_counterexample :
    output tabRender [Op.text "a\tb"] = some "a    b" ∧
      output tabRender [Op.text "a\tb"] ≠
        some (concatAll ([Op.text "a\tb"].map Op.literal)) := by
  decide

/-- C3 (amended): for every chain of `Text(t)`, `Space()` and `Space(n)` calls with `n ≥ 0` on a
fresh buffer, in which the renderer returns every text of the chain unchanged under the empty
style, `String()` returns exactly the concatenation, in call order, of the texts and the runs
of spaces; the empty chain flattens to the empty string. -/
theorem C3_texts_and_spaces_concatenate (R : Style → String → String) (ops : List Op)
    (hops : ∀ op ∈ ops, op.isTextOrSpace = true)
    (hR : ∀ t, Op.text t ∈ ops → R NewStyle t = t) :
    output R ops = some (concatAll (ops.map Op.literal)) ∧ output R [] = some "" := by
  have key : ∀ l : List Op, (∀ op ∈ l, op.isTextOrSpace = true) →
      (∀ t, Op.text t ∈ l → R NewStyle t = t) →
      output R l = some (concatAll (l.map Op.literal)) := by
    intro l hl hRl
    rw [output, outputFrom, run_texts_and_spaces R l Styled (le_refl _) hl hRl,
      Option.some_bind, String_of_resolved _ (le_refl _)]
    by_cases hc : concatAll (l.map Op.literal) = "" <;> simp [Styled, hc, stringsJoin]
  exact ⟨key ops hops hR, key [] (by simp) (by simp)⟩

/-- C3, witness: `Text("hello").Space(3).Text("world")`. -/
theorem C3_texts_and_spaces_concatenate_witness :
    output plainRender [Op.text "hello", Op.space [3], Op.text "world"] =
        some (concatAll ([Op.text "hello", Op.space [3], Op.text "world"].map Op.literal)) ∧
      output plainRender [] = some "" :=
  C3_texts_and_spaces_concatenate plainRender [Op.text "hello", Op.space [3], Op.text "world"]
    (by decide) (fun _ _ => rfl)

/-! ## C4 -/

/-- C4: in every buffer state with `pendingNewlines == 0`, for every `n` and every text `X`,
`Indent(n).Text(X)` and `Text(X)` both return, with the same completed lines, the same current
line and the same `String()` output. -/
theorem C4_indent_without_newline (R : Style → String → String) (s : StyledText) (n : Int)
    (X : String) (hp : s.pendingNewlines = 0) :
    ∃ a b out, run R [Op.indent n, Op.text X] s = some a ∧ run R [Op.text X] s = some b ∧
      a.parts = b.parts ∧ a.currLine = b.currLine ∧
      outputFrom R s [Op.indent n, Op.text X] = some out ∧
      outputFrom R s [Op.text X] = some out := by
  have hs : s.pendingNewlines ≤ 0 := le_of_eq hp
  have hi : (s.Indent n).pendingNewlines ≤ 0 := hs
  refine ⟨{ s.Indent n with currLine := (s.Indent n).currLine ++ R NewStyle X },
    { s with currLine := s.currLine ++ R NewStyle X }, ?_, ?_, ?_, rfl, rfl, ?_, ?_⟩
  · exact stringsJoin (if s.currLine ++ R NewStyle X ≠ "" then
      s.parts ++ [s.currLine ++ R NewStyle X] else s.parts) "\n"
  · simp [run, Op.apply, Text_of_resolved R _ X hi]
  · simp [run, Op.apply, Text_of_resolved R _ X hs]
  · simp only [outputFrom, run, Op.apply, Option.some_bind, Text_of_resolved R _ X hi]
    rw [String_of_resolved
      { s.Indent n with currLine := (s.Indent n).currLine ++ R NewStyle X } hi]
    simp [StyledText.Indent]
  · simp only [outputFrom, run, Op.apply, Option.some_bind, Text_of_resolved R _ X hs]
    rw [String_of_resolved { s with currLine := s.currLine ++ R NewStyle X } hs]
    simp

/-- C4, witness: `Styled().Indent(2).Text("indented")` against `Styled().Text("indented")`. -/
theorem C4_indent_without_newline_witness :
    ∃ a b out, run plainRender [Op.indent 2, Op.text "indented"] Styled = some a ∧
      run plainRender [Op.text "indented"] Styled = some b ∧
      a.parts = b.parts ∧ a.currLine = b.currLine ∧
      outputFrom plainRender Styled [Op.indent 2, Op.text "indented"] = some out ∧
      outputFrom plainRender Styled [Op.text "indented"] = some out :=
  C4_indent_without_newline plainRender Styled 2 "indented" rfl

theorem ensureLineStart_eq_none (s : StyledText) :
    s.ensureLineStart = none ↔ 0 < s.pendingNewlines ∧ s.indent < 0 := by
  constructor
  · intro h
    by_contra hc
    have : s.pendingNewlines ≤ 0 ∨ 0 ≤ s.indent := by omega
    obtain ⟨r, hr⟩ := ensureLineStart_isSome s this
    rw [hr] at h
    cases h
  · rintro ⟨hp, hi⟩
    exact ensureLineStart_panics s hp hi

/-! ## C5 -/

/-- C5: for every buffer state and every `n ≥ 0`, `Space(n)` is the resolution of the pending
start followed by `n` space characters appended to the current line; `Space()` is `Space(1)`;
`Space(0)` is the resolution alone; `Space(n)` panics exactly when the resolution does, with
newlines pending under a negative indent. -/
theorem C5_space (s : StyledText) (n : Int) (hn : 0 ≤ n) :
    s.Space [n] =
        s.ensureLineStart.map (fun r => { r with currLine := r.currLine ++ spaces n.toNat }) ∧
      s.Space [] = s.Space [1] ∧
      s.Space [0] = s.ensureLineStart ∧
      (s.Space [n] = none ↔ 0 < s.pendingNewlines ∧ s.indent < 0) := by
  have h1 : s.Space [n] =
      s.ensureLineStart.map (fun r => { r with currLine := r.currLine ++ spaces n.toNat }) := by
    cases h : s.ensureLineStart <;> simp [StyledText.Space, h, stringsRepeat_of_nonneg n hn]
  refine ⟨h1, ?_, ?_, ?_⟩
  · cases h : s.ensureLineStart with
    | none => simp [StyledText.Space, h]
    | some r =>
      simp [StyledText.Space, h, stringsRepeat_of_nonneg 1 (by decide)]
      rfl
  · cases h : s.ensureLineStart with
    | none => simp [StyledText.Space, h]
    | some r =>
      cases r
      simp [StyledText.Space, h, stringsRepeat_of_nonneg 0 (le_refl _), spaces_zero]
  · rw [h1, ← ensureLineStart_eq_none]
    cases s.ensureLineStart <;> simp

/-- C5, witness: `Space(3)` on the buffer left by `Text("hello")`. -/
theorem C5_space_witness :
    (⟨[], "hello", 0, 0⟩ : StyledText).Space [3] =
        (⟨[], "hello", 0, 0⟩ : StyledText).ensureLineStart.map
          (fun r => { r with currLine := r.currLine ++ spaces (3 : Int).toNat }) ∧
      (⟨[], "hello", 0, 0⟩ : StyledText).Space [] = (⟨[], "hello", 0, 0⟩ : StyledText).Space [1] ∧
      (⟨[], "hello", 0, 0⟩ : StyledText).Space [0] =
        (⟨[], "hello", 0, 0⟩ : StyledText).ensureLineStart ∧
      ((⟨[], "hello", 0, 0⟩ : StyledText).Space [3] = none ↔
        0 < (⟨[], "hello", 0, 0⟩ : StyledText).pendingNewlines ∧
          (⟨[], "hello", 0, 0⟩ : StyledText).indent < 0) :=
  C5_space ⟨[], "hello", 0, 0⟩ 3 (by decide)

/-! ## C6 -/

/-- C6: in every buffer state in which `String()` returns (no newline pending, or a non-negative
indent), a second `String()` right after the first returns the same string, and leaves the
buffer as the first call left it. -/
theorem C6_string_twice (s : StyledText) (h : s.pendingNewlines ≤ 0 ∨ 0 ≤ s.indent) :
    ∃ out s1, s.String = some (out, s1) ∧ s1.String = some (out, s1) := by
  obtain ⟨r, hr⟩ := ensureLineStart_isSome s h
  have hp := ensureLineStart_pending s r hr
  have h1 : s.String = r.String := by
    simp [StyledText.String, hr, ensureLineStart_of_not_pos r hp]
  rw [h1, String_of_resolved r hp]
  refine ⟨_, _, rfl, ?_⟩
  have h2 := String_of_resolved
    { parts := if r.currLine ≠ "" then r.parts ++ [r.currLine] else r.parts, currLine := "",
      indent := r.indent, pendingNewlines := r.pendingNewlines } hp
  simpa using h2

/-- C6, witness: the buffer left by `Text("a").Newline().Text("b")`. -/
theorem C6_string_twice_witness :
    ∃ out s1, (⟨["a", ""], "b", 0, 0⟩ : StyledText).String = some (out, s1) ∧
      s1.String = some (out, s1) :=
  C6_string_twice ⟨["a", ""], "b", 0, 0⟩ (Or.inl (by decide))

/-! ## C7 -/

/-- C7, as stated, fails: `Text("a").Newline().String()` is `"a\n"`, while
`Text("a").String()` is `"a"`. The trailing `Newline()` is resolved by `String()`. -/
theorem C7_counterexample :
    output plainRender [Op.text "a", Op.newline] = some "a\n" ∧
      output plainRender [Op.text "a"] = some "a" ∧
      output plainRender [Op.text "a", Op.newline] ≠ output plainRender [Op.text "a"] := by
  decide

/-- C7 (amended): in every buffer state with a non-empty current line, no newline pending and a
non-negative indent, a trailing `Newline()` before `String()` does not vanish: the output is the
output without it followed by one separator when the indent is 0, and by two separators and the
indent spaces when the indent is positive. -/
theorem C7_trailing_newline (R : Style → String → String) (s : StyledText)
    (hc : s.currLine ≠ "") (hp : s.pendingNewlines = 0) (hi : 0 ≤ s.indent) :
    ∃ out, outputFrom R s [] = some out ∧
      outputFrom R s [Op.newline] =
        some (out ++ "\n" ++ (if s.indent = 0 then "" else "\n" ++ spaces s.indent.toNat)) := by
  refine ⟨stringsJoin (s.parts ++ [s.currLine]) "\n", ?_, ?_⟩
  · rw [outputFrom_nil, String_of_resolved s (le_of_eq hp)]
    simp [hc]
  · have hp2 : 0 < s.Newline.pendingNewlines := by
      rw [Newline_of_nonempty s hc]
      simp [hp]
    have hi2 : 0 ≤ s.Newline.indent := by
      rw [Newline_of_nonempty s hc]
      exact hi
    simp only [outputFrom, run, Op.apply, Option.some_bind, StyledText.String]
    rw [ensureLineStart_of_pos _ hp2 hi2, Newline_of_nonempty s hc]
    simp only [hp, zero_add, Option.map_some', ne_eq, not_true_eq_false, if_false]
    have h1 : (1 : Int).toNat = 1 := rfl
    rw [h1]
    by_cases h0 : s.indent = 0
    · simp only [h0, Int.toNat_zero, spaces_zero, not_true_eq_false, if_false, if_true,
        List.replicate_one, ne_eq]
      rw [stringsJoin_append_singleton _ _ _ (by simp)]
    · have hne : spaces s.indent.toNat ≠ "" := by
        rw [Ne, spaces_eq_empty]
        omega
      simp only [hne, not_false_eq_true, if_true, h0, if_false, List.replicate_one]
      rw [stringsJoin_append_singleton _ _ _ (by simp),
        stringsJoin_append_singleton _ _ _ (by simp)]
      simp [String.ext_iff]

/-- C7, witness: the buffer left by `Text("a")`. -/
theorem C7_trailing_newline_witness :
    ∃ out, outputFrom plainRender ⟨[], "a", 0, 0⟩ [] = some out ∧
      outputFrom plainRender ⟨[], "a", 0, 0⟩ [Op.newline] =
        some (out ++ "\n" ++
          (if (⟨[], "a", 0, 0⟩ : StyledText).indent = 0 then ""
            else "\n" ++ spaces (⟨[], "a", 0, 0⟩ : StyledText).indent.toNat)) :=
  C7_trailing_newline plainRender ⟨[], "a", 0, 0⟩ (by decide) rfl (by decide)

/-! ## C10 -/

/-- C10, as stated, fails for a text that the renderer changes: under a renderer that converts
tabs, as lipgloss does, `Text("a\tb")` on a fresh buffer appends `a`, four spaces and `b`, not
the characters of the text. -/
theorem C10_counterexample :
    Styled.Text tabRender "a\tb" = some ⟨[], "a    b", 0, 0⟩ ∧
      Styled.Text tabRender "a\tb" ≠
        Styled.ensureLineStart.map (fun r => { r with currLine := r.currLine ++ "a\tb" }) := by
  decide

/-- C10 (amended): for every buffer state, every renderer and every text `t`, `Text(t)` is the
resolution of the pending start followed by the rendering of `t` under the empty style appended
to the current line; when the renderer returns `t` unchanged, the characters appended are
exactly those of `t`; the style `Text` renders through is the empty style; `Text(t)` panics
exactly when the resolution does. -/
theorem C10_text_appends_rendering (R : Style → String → String) (s : StyledText) (t : String) :
    s.Text R t =
        s.ensureLineStart.map (fun r => { r with currLine := r.currLine ++ R NewStyle t }) ∧
      (R NewStyle t = t →
        s.Text R t = s.ensureLineStart.map (fun r => { r with currLine := r.currLine ++ t })) ∧
      (∀ r : StyledText, (r.With []).style = NewStyle) ∧
      (s.Text R t = none ↔ 0 < s.pendingNewlines ∧ s.indent < 0) := by
  refine ⟨Text_eq R s t, fun hR => by rw [Text_eq, hR], fun _ => rfl, ?_⟩
  rw [Text_eq, ← ensureLineStart_eq_none]
  cases s.ensureLineStart <;> simp

/-- C10, witness: `Text("a\tb")` under the renderer that converts tabs, and `Text("world")`
under the renderer that returns the text, on the buffer left by
`Text("hello").Newline().Indent(2)`. -/
theorem C10_text_appends_rendering_witness :
    ((⟨["hello"], "", 2, 1⟩ : StyledText).Text tabRender "a\tb" =
        some ⟨["hello", ""], "  a    b", 2, 0⟩) ∧
      ((⟨["hello"], "", 2, 1⟩ : StyledText).Text plainRender "world" =
        some ⟨["hello", ""], "  world", 2, 0⟩) :=
  ⟨(C10_text_appends_rendering tabRender ⟨["hello"], "", 2, 1⟩ "a\tb").1.trans (by decide),
    ((C10_text_appends_rendering plainRender ⟨["hello"], "", 2, 1⟩ "world").2.1 rfl).trans
      (by decide)⟩

/-! ## Stripping of escape sequences -/

theorem isLetter_not_param (c : Char) (h : isLetter c = true) : isParamChar c = false := by
  have h59 : c ≠ ';' := by
    rintro rfl
    revert h
    decide
  have hn : ';'.toNat = 59 := rfl
  simp only [isLetter, isParamChar, Bool.or_eq_true, Bool.and_eq_true, decide_eq_true_eq,
    Bool.or_eq_false_iff, Bool.and_eq_false_iff, decide_eq_false_iff_not, beq_eq_false_iff_ne] at *
  have ha : 'a'.toNat = 97 := rfl
  have hA : 'A'.toNat = 65 := rfl
  have h9 : '9'.toNat = 57 := rfl
  refine ⟨?_, h59⟩
  right
  omega

theorem dropWhile_params (ps : List Char) (l : Char) (rest : List Char)
    (hps : ∀ c ∈ ps, isParamChar c = true) (hl : isLetter l = true) :
    (ps ++ l :: rest).dropWhile isParamChar = l :: rest := by
  induction ps with
  | nil => simp [List.dropWhile, isLetter_not_param l hl]
  | cons p ps ih =>
    have hp := hps p (List.mem_cons_self _ _)
    rw [List.cons_append, List.dropWhile_cons, hp, if_pos rfl,
      ih fun c hc => hps c (List.mem_cons_of_mem _ hc)]

theorem takeWhile_params (ps : List Char) (l : Char) (rest : List Char)
    (hps : ∀ c ∈ ps, isParamChar c = true) (hl : isLetter l = true) :
    (ps ++ l :: rest).takeWhile isParamChar = ps := by
  induction ps with
  | nil => simp [List.takeWhile, isLetter_not_param l hl]
  | cons p ps ih =>
    have hp := hps p (List.mem_cons_self _ _)
    rw [List.cons_append, List.takeWhile_cons, hp, if_pos rfl,
      ih fun c hc => hps c (List.mem_cons_of_mem _ hc)]

theorem matchLen_csi (ps : List Char) (l : Char) (rest : List Char)
    (hps : ∀ c ∈ ps, isParamChar c = true) (hl : isLetter l = true) :
    matchLen ('\x1b' :: '[' :: (ps ++ l :: rest)) = some (ps.length + 3) := by
  simp [matchLen, dropWhile_params ps l rest hps hl, takeWhile_params ps l rest hps hl, hl]

theorem matchLen_of_ne_esc (c : Char) (cs : List Char) (h : c ≠ '\x1b') :
    matchLen (c :: cs) = none := by
  cases cs with
  | nil => rfl
  | cons c1 rest => simp [matchLen, h]

theorem stripChars_skip (xs ys : List Char) :
    stripChars xs.length (xs ++ ys) = stripChars 0 ys := by
  induction xs with
  | nil => rfl
  | cons x xs ih => simpa [stripChars] using ih

theorem stripChars_plain_cons (c : Char) (cs : List Char) (h : c ≠ '\x1b') :
    stripChars 0 (c :: cs) = c :: stripChars 0 cs := by
  simp [stripChars, matchLen_of_ne_esc c cs h]

theorem stripChars_plain (xs ys : List Char) (h : '\x1b' ∉ xs) :
    stripChars 0 (xs ++ ys) = xs ++ stripChars 0 ys := by
  induction xs with
  | nil => rfl
  | cons x xs ih =>
    have hx : x ≠ '\x1b' := fun e => h (e ▸ List.mem_cons_self _ _)
    have hxs : '\x1b' ∉ xs := fun e => h (List.mem_cons_of_mem _ e)
    rw [List.cons_append, stripChars_plain_cons x _ hx, ih hxs]
    rfl

theorem stripChars_decoration (d ys : List Char) (h : Decoration d) :
    stripChars 0 (d ++ ys) = stripChars 0 ys := by
  induction h with
  | nil => rfl
  | csi ps l rest hps hl _ ih =>
    have hm := matchLen_csi ps l (rest ++ ys) hps hl
    have e1 : '\x1b' :: '[' :: (ps ++ l :: rest) ++ ys = '\x1b' :: '[' :: (ps ++ l :: (rest ++ ys)) := by
      simp
    have e2 : '[' :: (ps ++ l :: (rest ++ ys)) = ('[' :: (ps ++ [l])) ++ (rest ++ ys) := by simp
    have e3 : ps.length + 3 - 1 = ('[' :: (ps ++ [l])).length := by simp
    rw [e1, stripChars, hm]
    show stripChars (ps.length + 3 - 1) ('[' :: (ps ++ l :: (rest ++ ys))) = _
    rw [e2, e3, stripChars_skip, ih]

/-! ## Simulation of a rendered chain by the plain chain -/

theorem StripsTo.append {x y u v : String} (h1 : StripsTo x y) (h2 : StripsTo u v) :
    StripsTo (x ++ u) (y ++ v) := by
  constructor
  · intro cs
    simp only [String.data_append, List.append_assoc]
    rw [h1.1, h2.1]
  · rw [str_append_eq_empty, str_append_eq_empty, h1.2, h2.2]

theorem StripsTo.plain (x : String) (h : '\x1b' ∉ x.data) : StripsTo x x :=
  ⟨fun cs => stripChars_plain x.data cs h, Iff.rfl⟩

theorem StripsTo.empty : StripsTo "" "" := StripsTo.plain "" (by simp)

theorem StripsTo.spaces (n : Nat) : StripsTo (spaces n) (spaces n) := by
  apply StripsTo.plain
  simp only [Tinge.spaces, List.mem_replicate, not_and]
  intro _ h
  revert h
  decide

theorem StripsTo.of_wraps (R : Style → String → String) (st : Style) (t : String)
    (ht : '\x1b' ∉ t.data) (h : WrapsInANSI R st t) : StripsTo (R st t) t := by
  obtain ⟨pre, post, hpre, hpost, hdata, hempty⟩ := h
  constructor
  · intro cs
    rw [hdata, List.append_assoc, List.append_assoc, stripChars_decoration _ _ hpre,
      stripChars_plain _ _ ht, stripChars_decoration _ _ hpost]
  · constructor
    · intro he
      have : (R st t).data = [] := by rw [he]
      rw [hdata] at this
      simp only [List.append_eq_nil] at this
      exact String.ext this.1.2
    · exact hempty

theorem forall₂_blank (n : Nat) :
    List.Forall₂ StripsTo (List.replicate n "") (List.replicate n "") := by
  induction n with
  | zero => exact List.Forall₂.nil
  | succ n ih => exact List.Forall₂.cons StripsTo.empty ih

theorem forall₂_snoc {l m : List String} {x y : String} (h : List.Forall₂ StripsTo l m)
    (hx : StripsTo x y) : List.Forall₂ StripsTo (l ++ [x]) (m ++ [y]) :=
  List.rel_append h (List.Forall₂.cons hx List.Forall₂.nil)

theorem Sim.flush {a b : StyledText} (h : Sim a b) :
    Sim (if a.currLine ≠ "" then { a with parts := a.parts ++ [a.currLine], currLine := "" }
          else a)
        (if b.currLine ≠ "" then { b with parts := b.parts ++ [b.currLine], currLine := "" }
          else b) := by
  obtain ⟨hparts, hcur, hind, hpend⟩ := h
  by_cases hc : a.currLine = ""
  · have hb : b.currLine = "" := hcur.2.mp hc
    simp only [hc, hb, ne_eq, not_true_eq_false, if_false]
    exact ⟨hparts, hcur, hind, hpend⟩
  · have hb : b.currLine ≠ "" := fun e => hc (hcur.2.mpr e)
    simp only [hc, hb, ne_eq, not_false_eq_true, if_true]
    exact ⟨forall₂_snoc hparts hcur, StripsTo.empty, hind, hpend⟩

theorem Sim.ensureLineStart {a b : StyledText} (h : Sim a b) :
    SimOpt a.ensureLineStart b.ensureLineStart := by
  have hf := h.flush
  obtain ⟨hparts, hcur, hind, hpend⟩ := h
  by_cases hp : 0 < a.pendingNewlines
  · by_cases hi : 0 ≤ a.indent
    · rw [ensureLineStart_of_pos a hp hi, ensureLineStart_of_pos b (hpend ▸ hp) (hind ▸ hi)]
      refine ⟨?_, ?_, hind, rfl⟩
      · rw [← hpend]
        refine List.rel_append ?_ (forall₂_blank _)
        have := hf.1
        by_cases hc : a.currLine = ""
        · have hb : b.currLine = "" := hcur.2.mp hc
          simpa [hc, hb] using hparts
        · have hb : b.currLine ≠ "" := fun e => hc (hcur.2.mpr e)
          simpa [hc, hb] using forall₂_snoc hparts hcur
      · rw [← hind]
        exact StripsTo.spaces _
    · rw [ensureLineStart_panics a hp (not_le.mp hi),
        ensureLineStart_panics b (hpend ▸ hp) (hind ▸ not_le.mp hi)]
      trivial
  · rw [ensureLineStart_of_not_pos a (not_lt.mp hp),
      ensureLineStart_of_not_pos b (hpend ▸ not_lt.mp hp)]
    exact ⟨hparts, hcur, hind, hpend⟩

theorem SimOpt.map {f g : StyledText → StyledText} {x y : Option StyledText}
    (h : SimOpt x y) (hfg : ∀ a b, Sim a b → Sim (f a) (g b)) : SimOpt (x.map f) (y.map g) := by
  cases x <;> cases y <;> simp_all [SimOpt]

theorem SimOpt.bind {f g : StyledText → Option StyledText} {x y : Option StyledText}
    (h : SimOpt x y) (hfg : ∀ a b, Sim a b → SimOpt (f a) (g b)) :
    SimOpt (x.bind f) (y.bind g) := by
  cases x <;> cases y <;> simp_all [SimOpt]

theorem Sim.appendLine {a b : StyledText} {x y : String} (h : Sim a b) (hx : StripsTo x y) :
    Sim { a with currLine := a.currLine ++ x } { b with currLine := b.currLine ++ y } :=
  ⟨h.1, h.2.1.append hx, h.2.2.1, h.2.2.2⟩

theorem Sim.builderText (R : Style → String → String) {a b : StyledText} (h : Sim a b)
    (st : Style) (t : String) (ht : StripsTo (R st t) t) :
    SimOpt (StyledTextBuilder.Text R ⟨a, st⟩ t) (StyledTextBuilder.Text plainRender ⟨b, st⟩ t) :=
  h.ensureLineStart.map fun _ _ hab => hab.appendLine ht

theorem Sim.space {a b : StyledText} (h : Sim a b) (n : List Int) :
    SimOpt (a.Space n) (b.Space n) := by
  refine h.ensureLineStart.bind fun a1 b1 h1 => ?_
  cases n with
  | nil => exact h1.appendLine (StripsTo.spaces 1)
  | cons n0 rest =>
    by_cases hn : 0 ≤ n0
    · simp only [stringsRepeat_of_nonneg n0 hn, Option.map_some']
      exact h1.appendLine (StripsTo.spaces _)
    · simp only [stringsRepeat_of_neg _ n0 (not_le.mp hn), Option.map_none']
      trivial

theorem Sim.newline {a b : StyledText} (h : Sim a b) : Sim a.Newline b.Newline := by
  obtain ⟨h1, h2, h3, h4⟩ := h.flush
  exact ⟨h1, h2, h3, by simp only [StyledText.Newline]; rw [h4]⟩

theorem Sim.string {a b : StyledText} (h : Sim a b) :
    SimOpt (a.String.map Prod.snd) (b.String.map Prod.snd) := by
  simp only [StyledText.String, Option.map_map]
  exact h.ensureLineStart.map fun _ _ hab => hab.flush

theorem Sim.apply (R : Style → String → String) {a b : StyledText} (h : Sim a b) (op : Op)
    (hesc : op.escFree = true)
    (hR : ∀ st t, op.rendered = some (st, t) → WrapsInANSI R st t) :
    SimOpt (op.apply R a) (op.apply plainRender b) := by
  cases op with
  | text t =>
    have ht : StripsTo (R NewStyle t) t :=
      StripsTo.of_wraps R NewStyle t (by simpa [Op.escFree, Op.rendered] using hesc)
        (hR NewStyle t rfl)
    exact h.ensureLineStart.bind fun a1 b1 h1 => h1.builderText R NewStyle t ht
  | withText styles t =>
    have ht : StripsTo (R (styles.foldl Style.Inherit NewStyle) t) t :=
      StripsTo.of_wraps R _ t (by simpa [Op.escFree, Op.rendered] using hesc) (hR _ t rfl)
    exact h.builderText R _ t ht
  | space n => exact h.space n
  | newline => exact h.newline
  | indent n => exact ⟨h.1, h.2.1, rfl, h.2.2.2⟩
  | string => exact h.string

theorem Sim.run (R : Style → String → String) (ops : List Op) {a b : StyledText} (h : Sim a b)
    (hesc : ∀ op ∈ ops, op.escFree = true)
    (hR : ∀ op ∈ ops, ∀ st t, op.rendered = some (st, t) → WrapsInANSI R st t) :
    SimOpt (Tinge.run R ops a) (Tinge.run plainRender ops b) := by
  induction ops generalizing a b with
  | nil => exact h
  | cons op ops ih =>
    refine (h.apply R op (hesc op (List.mem_cons_self _ _))
      (hR op (List.mem_cons_self _ _))).bind fun a1 b1 h1 => ?_
    exact ih h1 (fun o ho => hesc o (List.mem_cons_of_mem _ ho))
      (fun o ho => hR o (List.mem_cons_of_mem _ ho))

theorem stripsTo_foldl_join {l m : List String} (h : List.Forall₂ StripsTo l m)
    (x y : String) (hx : ∀ cs, stripChars 0 (x.data ++ cs) = y.data ++ stripChars 0 cs) :
    ∀ cs, stripChars 0 ((l.foldl (fun b s => b ++ "\n" ++ s) x).data ++ cs) =
      (m.foldl (fun b s => b ++ "\n" ++ s) y).data ++ stripChars 0 cs := by
  induction h generalizing x y with
  | nil => exact hx
  | cons hab _ ih =>
    refine ih _ _ fun cs => ?_
    have hn := (StripsTo.plain "\n" (by decide)).1
    simp only [String.data_append, List.append_assoc]
    rw [hx, hn, hab.1]

theorem stripANSI_join {l m : List String} (h : List.Forall₂ StripsTo l m) :
    stripANSI (stringsJoin l "\n") = stringsJoin m "\n" := by
  cases h with
  | nil => rfl
  | cons hab hrest =>
    rw [stringsJoin_cons, stringsJoin_cons]
    have := stripsTo_foldl_join hrest _ _ hab.1 []
    simp only [List.append_nil, stripChars] at this
    rw [stripANSI, this]

theorem Sim.output {a b : StyledText} (h : Sim a b) :
    (a.String.map Prod.fst).map stripANSI = b.String.map Prod.fst := by
  have he := h.ensureLineStart
  simp only [StyledText.String, Option.map_map]
  cases ha : a.ensureLineStart <;> cases hb : b.ensureLineStart <;>
    simp only [ha, hb, SimOpt] at he
  · rfl
  · simp only [Option.map_some', Function.comp, Option.some.injEq]
    exact stripANSI_join he.flush.1

theorem decoration_sgr (ps : List Char) (rest : List Char)
    (hps : ∀ c ∈ ps, isParamChar c = true) (h : Decoration rest) :
    Decoration ('\x1b' :: '[' :: (ps ++ 'm' :: rest)) :=
  Decoration.csi ps 'm' rest hps (by decide) h

theorem ansiRender_wraps (st : Style) (t : String) (h : st = NewStyle ∨ t ≠ "") :
    WrapsInANSI ansiRender st t := by
  by_cases hst : st = NewStyle
  · exact ⟨[], [], Decoration.nil, Decoration.nil, by simp [ansiRender, hst],
      fun e => by simp [ansiRender, hst, e]⟩
  · have ht : t ≠ "" := h.resolve_left hst
    refine ⟨((if st.bold.isSome then "\x1b[1m" else "") ++
        (if st.italic.isSome then "\x1b[3m" else "") ++
        (if st.foreground.isSome then "\x1b[38;5;9m" else "")).data, "\x1b[0m".data, ?_, ?_, ?_,
      fun e => absurd e ht⟩
    · have hfg : Decoration (if st.foreground.isSome then "\x1b[38;5;9m" else "").data := by
        split
        · exact decoration_sgr ['3', '8', ';', '5', ';', '9'] [] (by decide) Decoration.nil
        · exact Decoration.nil
      have hit : Decoration ((if st.italic.isSome then "\x1b[3m" else "").data ++
          (if st.foreground.isSome then "\x1b[38;5;9m" else "").data) := by
        split
        · exact decoration_sgr ['3'] _ (by decide) hfg
        · exact hfg
      have hbo : Decoration ((if st.bold.isSome then "\x1b[1m" else "").data ++
          ((if st.italic.isSome then "\x1b[3m" else "").data ++
            (if st.foreground.isSome then "\x1b[38;5;9m" else "").data)) := by
        split
        · exact decoration_sgr ['1'] _ (by decide) hit
        · exact hit
      simpa only [String.data_append, List.append_assoc] using hbo
    · exact decoration_sgr ['0'] [] (by decide) Decoration.nil
    · simp [ansiRender, hst]

/-! ## C8 -/

/-- C8, as stated, fails in two ways. A text that itself holds an escape sequence is stripped
with the decoration: `Text("\x1b[0m")` flattens to that text and strips to the empty string. A
renderer that decorates the empty text makes an empty line count as content:
`Red("").Newline().Text("b")` strips to `"\n\nb"`, while the plain chain gives `"\nb"`. -/
theorem C8_counterexample :
    ((output plainRender [Op.text "\x1b[0m"]).map stripANSI = some "" ∧
        output plainRender [Op.text "\x1b[0m"] = some "\x1b[0m") ∧
      ((output ansiRender [Op.withText [Red] "", Op.newline, Op.text "b"]).map stripANSI =
          some "\n\nb" ∧
        output plainRender [Op.withText [Red] "", Op.newline, Op.text "b"] = some "\nb") := by
  decide

/-- C8 (amended): for every chain of `Text`, `With(...).Text`, `Space`, `Newline`, `Indent` and
`String` calls on a fresh buffer in which no text holds an ESC character and the renderer turns
every text of the chain into that text between two runs of complete escape sequences, the empty
text into the empty string, `stripANSI` of the string returned by `String()` is the string
that the same chain returns when every render leaves the text unchanged; either chain panics
exactly when the other does. -/
theorem C8_strip_round_trip (R : Style → String → String) (ops : List Op)
    (hesc : ∀ op ∈ ops, op.escFree = true)
    (hR : ∀ op ∈ ops, ∀ st t, op.rendered = some (st, t) → WrapsInANSI R st t) :
    (output R ops).map stripANSI = output plainRender ops := by
  have h0 : Sim Styled Styled :=
    ⟨List.Forall₂.nil, StripsTo.empty, rfl, rfl⟩
  have hrun := h0.run R ops hesc hR
  simp only [output, outputFrom]
  cases ha : run R ops Styled <;> cases hb : run plainRender ops Styled <;>
    simp only [ha, hb, SimOpt] at hrun
  · rfl
  · simpa using hrun.output

/-- C8, witness: the chain of `TestChaining` under `ansiRender`. -/
theorem C8_strip_round_trip_witness :
    (output ansiRender [Op.withText [Bold] "Hello", Op.space [], Op.withText [Green] "World",
        Op.newline, Op.indent 2, Op.withText [Red] "Indented", Op.space [],
        Op.withText [Blue] "Text"]).map stripANSI =
      output plainRender [Op.withText [Bold] "Hello", Op.space [], Op.withText [Green] "World",
        Op.newline, Op.indent 2, Op.withText [Red] "Indented", Op.space [],
        Op.withText [Blue] "Text"] :=
  C8_strip_round_trip ansiRender _ (by decide) (by
    intro op hop st t hr
    apply ansiRender_wraps
    right
    simp only [List.mem_cons, List.mem_singleton, List.not_mem_nil, or_false] at hop
    rcases hop with rfl | rfl | rfl | rfl | rfl | rfl | rfl | rfl <;> cases hr <;> decide)

/-! ## C9 -/

theorem foldl_Inherit_foreground (styles : List Style) (acc : Style) :
    (styles.foldl Style.Inherit acc).foreground =
      if acc.foreground.isSome then acc.foreground else styles.findSome? Style.foreground := by
  induction styles generalizing acc with
  | nil => cases h : acc.foreground <;> simp [h]
  | cons st styles ih =>
    rw [List.foldl_cons, ih]
    cases ha : acc.foreground <;> cases hs : st.foreground <;>
      simp [Style.Inherit, ha, hs, List.findSome?]

theorem foldl_Inherit_bold (styles : List Style) (acc : Style) :
    (styles.foldl Style.Inherit acc).bold =
      if acc.bold.isSome then acc.bold else styles.findSome? Style.bold := by
  induction styles generalizing acc with
  | nil => cases h : acc.bold <;> simp [h]
  | cons st styles ih =>
    rw [List.foldl_cons, ih]
    cases ha : acc.bold <;> cases hs : st.bold <;> simp [Style.Inherit, ha, hs, List.findSome?]

theorem foldl_Inherit_italic (styles : List Style) (acc : Style) :
    (styles.foldl Style.Inherit acc).italic =
      if acc.italic.isSome then acc.italic else styles.findSome? Style.italic := by
  induction styles generalizing acc with
  | nil => cases h : acc.italic <;> simp [h]
  | cons st styles ih =>
    rw [List.foldl_cons, ih]
    cases ha : acc.italic <;> cases hs : st.italic <;>
      simp [Style.Inherit, ha, hs, List.findSome?]

/-- C9, as stated, fails: of two foreground colours the first wins. `With(Red, Blue)` has the
foreground of `Red`, not the foreground of `Blue`, the last style that sets it. -/
theorem C9_counterexample :
    (Styled.With [Red, Blue]).style.foreground = Red.foreground ∧
      (Styled.With [Red, Blue]).style.foreground ≠ Blue.foreground := by
  decide

/-- C9 (amended): `With` folds the styles with `Inherit` from the empty style and keeps the
buffer as parent; the combined style gives each property the value set by the first style in
argument order that sets it, and leaves it unset when no style sets it; properties set by one
style only are all kept, so `With(Bold, Italic)` is bold and italic. -/
theorem C9_with_first_wins (s : StyledText) (styles : List Style) :
    (s.With styles).parent = s ∧
      (s.With styles).style = styles.foldl Style.Inherit NewStyle ∧
      (s.With styles).style.foreground = styles.findSome? Style.foreground ∧
      (s.With styles).style.bold = styles.findSome? Style.bold ∧
      (s.With styles).style.italic = styles.findSome? Style.italic ∧
      (s.With [Bold, Italic]).style = ⟨none, some true, some true⟩ := by
  refine ⟨rfl, rfl, ?_, ?_, ?_, rfl⟩
  · simp [StyledText.With, foldl_Inherit_foreground, NewStyle]
  · simp [StyledText.With, foldl_Inherit_bold, NewStyle]
  · simp [StyledText.With, foldl_Inherit_italic, NewStyle]

/-! ## C11 -/

/-- C11, as stated, fails: the chain of the documented `Project Status` example does not produce
the four consecutive lines of the documented output. With the styling stripped, and also with
no styling at all, every `Newline()` of the chain leaves an empty line between two lines of
content. -/
theorem C11_counterexample :
    (output ansiRender projectStatusExample).map stripANSI =
        some "Project Status:\n\n  ✓ Tests passing\n\n  ✗ Build failed\n\n  ⚠ Warnings found" ∧
      output plainRender projectStatusExample =
        some "Project Status:\n\n  ✓ Tests passing\n\n  ✗ Build failed\n\n  ⚠ Warnings found" ∧
      (output ansiRender projectStatusExample).map stripANSI ≠ some projectStatusDocumented ∧
      output plainRender projectStatusExample ≠ some projectStatusDocumented := by
  decide

/-- C11 (amended): under every renderer that turns each text of the chain into that text between
two runs of complete escape sequences, the chain of the documented `Project Status` example
produces, with the styling stripped, the four lines separated by one empty line each: one
`Newline()` between two contents leaves one empty line. This is not the documented output. -/
theorem C11_doc_example_output (R : Style → String → String)
    (hR : ∀ op ∈ projectStatusExample, ∀ st t, op.rendered = some (st, t) →
      WrapsInANSI R st t) :
    (output R projectStatusExample).map stripANSI = some projectStatusOutput ∧
      projectStatusOutput ≠ projectStatusDocumented := by
  have h0 : Sim Styled Styled := ⟨List.Forall₂.nil, StripsTo.empty, rfl, rfl⟩
  have hesc : ∀ op ∈ projectStatusExample, op.escFree = true := by decide
  have hrun := h0.run R projectStatusExample hesc hR
  have hplain : output plainRender projectStatusExample = some projectStatusOutput := by decide
  refine ⟨?_, by decide⟩
  rw [← hplain]
  simp only [output, outputFrom]
  cases ha : run R projectStatusExample Styled <;>
    cases hb : run plainRender projectStatusExample Styled <;>
    simp only [ha, hb, SimOpt] at hrun
  · rfl
  · simpa using hrun.output

/-- C11, witness: the chain under `ansiRender`. -/
theorem C11_doc_example_output_witness :
    (output ansiRender projectStatusExample).map stripANSI = some projectStatusOutput ∧
      projectStatusOutput ≠ projectStatusDocumented :=
  C11_doc_example_output ansiRender (by
    intro op hop st t hr
    apply ansiRender_wraps
    right
    simp only [projectStatusExample, List.mem_cons, List.mem_singleton, List.not_mem_nil,
      or_false] at hop
    rcases hop with rfl | rfl | rfl | rfl | rfl | rfl | rfl | rfl | rfl | rfl | rfl | rfl | rfl <;>
      cases hr <;> decide)

/-! ## C12 -/

/-- C12: in every buffer state with `pendingNewlines ≥ 0` and `indent ≥ 0`, `ensureLineStart`
returns; it leaves the state unchanged when `pendingNewlines == 0`; otherwise the completed lines
become the old ones, then the old current line if it was not empty, then `pendingNewlines` empty
strings, `pendingNewlines` becomes 0, the current line becomes `indent` spaces and `indent` is
unchanged. -/
theorem C12_ensureLineStart (s : StyledText) (hp : 0 ≤ s.pendingNewlines) (hi : 0 ≤ s.indent) :
    s.ensureLineStart = some
      (if s.pendingNewlines = 0 then s
       else
        { parts := s.parts ++ (if s.currLine ≠ "" then [s.currLine] else []) ++
            List.replicate s.pendingNewlines.toNat ""
          currLine := spaces s.indent.toNat
          indent := s.indent
          pendingNewlines := 0 }) := by
  by_cases h0 : s.pendingNewlines = 0
  · rw [if_pos h0, ensureLineStart_of_not_pos s (le_of_eq h0)]
  · have hpos : 0 < s.pendingNewlines := lt_of_le_of_ne hp (Ne.symm h0)
    rw [if_neg h0, ensureLineStart_of_pos s hpos hi]
    by_cases hc : s.currLine = "" <;> simp [hc]

/-- C12, witness: the buffer left by `Text("a").Newline().Newline().Indent(2)`. -/
theorem C12_ensureLineStart_witness :
    (⟨["a"], "", 2, 2⟩ : StyledText).ensureLineStart = some
      (if (⟨["a"], "", 2, 2⟩ : StyledText).pendingNewlines = 0 then ⟨["a"], "", 2, 2⟩
       else
        { parts := (⟨["a"], "", 2, 2⟩ : StyledText).parts ++
            (if (⟨["a"], "", 2, 2⟩ : StyledText).currLine ≠ "" then
              [(⟨["a"], "", 2, 2⟩ : StyledText).currLine] else []) ++
            List.replicate (⟨["a"], "", 2, 2⟩ : StyledText).pendingNewlines.toNat ""
          currLine := spaces (⟨["a"], "", 2, 2⟩ : StyledText).indent.toNat
          indent := (⟨["a"], "", 2, 2⟩ : StyledText).indent
          pendingNewlines := 0 }) :=
  C12_ensureLineStart ⟨["a"], "", 2, 2⟩ (by decide) (by decide)

/-! ## C13 -/

theorem Newline_spec (s : StyledText) :
    s.Newline =
        { parts := if s.currLine ≠ "" then s.parts ++ [s.currLine] else s.parts
          currLine := ""
          indent := s.indent
          pendingNewlines := s.pendingNewlines + 1 } ∧
      s.Newline.pendingNewlines = s.pendingNewlines + 1 ∧
      s.Newline.indent = s.indent ∧
      s.Newline.currLine = "" ∧
      s.Newline.parts.count "" = s.parts.count "" := by
  by_cases hc : s.currLine = ""
  · rw [Newline_of_empty s hc]
    simp [hc]
  · rw [Newline_of_nonempty s hc]
    simp [hc, List.count_append, List.count_singleton, Ne.symm hc]

theorem wrapInt64_of_range (x : Int) (hlo : minInt64 ≤ x) (hhi : x ≤ maxInt64) :
    wrapInt64 x = x := by
  unfold wrapInt64
  unfold minInt64 at hlo
  unfold maxInt64 at hhi
  omega

theorem NewlineInt64_eq (s : StyledText) (hlo : minInt64 ≤ s.pendingNewlines)
    (hhi : s.pendingNewlines < maxInt64) : s.NewlineInt64 = s.Newline := by
  have hw : wrapInt64 (s.pendingNewlines + 1) = s.pendingNewlines + 1 :=
    wrapInt64_of_range _ (by unfold minInt64 at *; omega) (by unfold maxInt64 at *; omega)
  by_cases hc : s.currLine = "" <;> simp [StyledText.NewlineInt64, StyledText.Newline, hc, hw]

/-- C13, as stated, fails at the largest value of the counter: `pendingNewlines` is a Go `int`,
and at `math.MaxInt64` the increment of `Newline()` wraps to `math.MinInt64`: the counter does
not grow by 1. -/
theorem C13_counterexample :
    (⟨[], "", 0, maxInt64⟩ : StyledText).NewlineInt64.pendingNewlines = minInt64 ∧
      (⟨[], "", 0, maxInt64⟩ : StyledText).NewlineInt64.pendingNewlines ≠
        (⟨[], "", 0, maxInt64⟩ : StyledText).pendingNewlines + 1 := by
  decide

/-- C13 (amended): in every buffer state whose counter is below `math.MaxInt64`, `Newline()`
adds exactly 1 to `pendingNewlines`, whether the current line is empty or not; a non-empty
current line becomes the last completed line and the current line becomes empty, otherwise the
completed lines are unchanged; `indent` is unchanged; the number of empty strings among the
completed lines is unchanged. Below the bound the machine counter and the unbounded counter
agree. -/
theorem C13_newline_below_max (s : StyledText) (hlo : minInt64 ≤ s.pendingNewlines)
    (hhi : s.pendingNewlines < maxInt64) :
    s.NewlineInt64 =
        { parts := if s.currLine ≠ "" then s.parts ++ [s.currLine] else s.parts
          currLine := ""
          indent := s.indent
          pendingNewlines := s.pendingNewlines + 1 } ∧
      s.NewlineInt64 = s.Newline ∧
      s.NewlineInt64.pendingNewlines = s.pendingNewlines + 1 ∧
      s.NewlineInt64.indent = s.indent ∧
      s.NewlineInt64.currLine = "" ∧
      s.NewlineInt64.parts.count "" = s.parts.count "" := by
  rw [NewlineInt64_eq s hlo hhi]
  obtain ⟨h1, h2, h3, h4, h5⟩ := Newline_spec s
  exact ⟨h1, rfl, h2, h3, h4, h5⟩

/-- C13, witness: the buffer left by `Text("a").Newline().Indent(2).Text("b")`. -/
theorem C13_newline_below_max_witness :
    (⟨["a", ""], "  b", 2, 0⟩ : StyledText).NewlineInt64 =
        { parts := if (⟨["a", ""], "  b", 2, 0⟩ : StyledText).currLine ≠ "" then
            (⟨["a", ""], "  b", 2, 0⟩ : StyledText).parts ++
              [(⟨["a", ""], "  b", 2, 0⟩ : StyledText).currLine]
            else (⟨["a", ""], "  b", 2, 0⟩ : StyledText).parts
          currLine := ""
          indent := (⟨["a", ""], "  b", 2, 0⟩ : StyledText).indent
          pendingNewlines := (⟨["a", ""], "  b", 2, 0⟩ : StyledText).pendingNewlines + 1 } ∧
      (⟨["a", ""], "  b", 2, 0⟩ : StyledText).NewlineInt64 =
        (⟨["a", ""], "  b", 2, 0⟩ : StyledText).Newline ∧
      (⟨["a", ""], "  b", 2, 0⟩ : StyledText).NewlineInt64.pendingNewlines =
        (⟨["a", ""], "  b", 2, 0⟩ : StyledText).pendingNewlines + 1 ∧
      (⟨["a", ""], "  b", 2, 0⟩ : StyledText).NewlineInt64.indent =
        (⟨["a", ""], "  b", 2, 0⟩ : StyledText).indent ∧
      (⟨["a", ""], "  b", 2, 0⟩ : StyledText).NewlineInt64.currLine = "" ∧
      (⟨["a", ""], "  b", 2, 0⟩ : StyledText).NewlineInt64.parts.count "" =
        (⟨["a", ""], "  b", 2, 0⟩ : StyledText).parts.count "" :=
  C13_newline_below_max ⟨["a", ""], "  b", 2, 0⟩ (by decide) (by decide)

/-! ## Totality and invariants of the calls -/

theorem ensureLineStart_spec (s : StyledText) (hi : 0 ≤ s.indent) :
    ∃ r, s.ensureLineStart = some r ∧ r.pendingNewlines ≤ 0 ∧ r.indent = s.indent ∧
      (0 ≤ s.pendingNewlines → r.pendingNewlines = 0) ∧
      (0 < s.pendingNewlines → r.currLine = spaces s.indent.toNat) ∧
      s.parts <+: r.parts := by
  by_cases hp : 0 < s.pendingNewlines
  · refine ⟨_, ensureLineStart_of_pos s hp hi, le_refl _, rfl, fun _ => rfl, fun _ => rfl, ?_⟩
    by_cases hc : s.currLine = "" <;> simp [hc, List.append_assoc]
  · exact ⟨s, ensureLineStart_of_not_pos s (not_lt.mp hp), not_lt.mp hp, rfl,
      fun h => le_antisymm (not_lt.mp hp) h, fun h => absurd h hp, List.prefix_refl _⟩

theorem apply_append_eq (R : Style → String → String) (s : StyledText) (op : Op)
    (hop : op.isAppend = true) (hargs : op.nonnegArgs = true) :
    op.apply R s =
      s.ensureLineStart.map fun r => { r with currLine := r.currLine ++ op.content R } := by
  cases op with
  | text t => exact Text_eq R s t
  | withText styles t => rfl
  | space n =>
    cases h : s.ensureLineStart with
    | none => simp [Op.apply, StyledText.Space, h]
    | some r =>
      cases n with
      | nil => simp [Op.apply, StyledText.Space, h, Op.content, Op.literal]
      | cons n0 rest =>
        have hn : (0 : Int) ≤ n0 := by simpa [Op.nonnegArgs] using hargs
        simp [Op.apply, StyledText.Space, h, Op.content, Op.literal,
          stringsRepeat_of_nonneg n0 hn]
  | newline => simp [Op.isAppend] at hop
  | indent w => simp [Op.isAppend] at hop
  | string => simp [Op.isAppend] at hop

theorem String_spec (s : StyledText) (hi : 0 ≤ s.indent) :
    ∃ r0 out r, s.ensureLineStart = some r0 ∧ s.String = some (out, r) ∧
      r.parts = r0.parts ++ (if r0.currLine ≠ "" then [r0.currLine] else []) ∧
      r.currLine = "" ∧ r.indent = s.indent ∧ r.pendingNewlines = r0.pendingNewlines ∧
      out = stringsJoin r.parts "\n" := by
  obtain ⟨r0, h0, _, hind, _, _, _⟩ := ensureLineStart_spec s hi
  by_cases hc : r0.currLine = ""
  · exact ⟨r0, _, _, h0, by simp only [StyledText.String, h0, Option.map_some']; rfl,
      by simp [hc], by simp [hc], by simp [hc, hind], by simp [hc], rfl⟩
  · exact ⟨r0, _, _, h0, by simp only [StyledText.String, h0, Option.map_some']; rfl,
      by simp [hc], by simp [hc], by simp [hc, hind], by simp [hc], rfl⟩

theorem apply_total (R : Style → String → String) (s : StyledText) (op : Op)
    (hi : 0 ≤ s.indent) (hp : 0 ≤ s.pendingNewlines) (hargs : op.nonnegArgs = true) :
    ∃ r, op.apply R s = some r ∧ 0 ≤ r.indent ∧ 0 ≤ r.pendingNewlines := by
  obtain ⟨r0, h0, _, hind, hpend, _, _⟩ := ensureLineStart_spec s hi
  by_cases hop : op.isAppend = true
  · rw [apply_append_eq R s op hop hargs, h0]
    exact ⟨_, rfl, by simp [hind, hi], by simp [hpend hp]⟩
  · cases op with
    | text t => simp [Op.isAppend] at hop
    | withText styles t => simp [Op.isAppend] at hop
    | space n => simp [Op.isAppend] at hop
    | newline =>
      refine ⟨s.Newline, rfl, ?_, ?_⟩
      · by_cases hc : s.currLine = "" <;> simp [StyledText.Newline, hc, hi]
      · by_cases hc : s.currLine = "" <;> simp [StyledText.Newline, hc] <;> omega
    | indent w =>
      exact ⟨s.Indent w, rfl, by simpa [Op.nonnegArgs] using hargs, hp⟩
    | string =>
      obtain ⟨r1, out, r, h1, hs, _, _, hri, hrp, _⟩ := String_spec s hi
      rw [h0] at h1
      cases h1
      exact ⟨r, by simp [Op.apply, hs], by rw [hri]; exact hi, by rw [hrp, hpend hp]⟩

theorem apply_keeps_invariant (R : Style → String → String) (s r : StyledText) (op : Op)
    (hs : s.flushesInResolution = false) (h : op.apply R s = some r) :
    r.flushesInResolution = false := by
  have key : ∀ r0 : StyledText, s.ensureLineStart = some r0 → ∀ x : String,
      ({ r0 with currLine := x } : StyledText).flushesInResolution = false := by
    intro r0 h0 x
    have := ensureLineStart_pending s r0 h0
    simp [StyledText.flushesInResolution, not_lt.mpr this]
  cases op with
  | text t =>
    rw [Op.apply, Text_eq] at h
    cases h0 : s.ensureLineStart with
    | none => simp [h0] at h
    | some r0 =>
      simp only [h0, Option.map_some', Option.some.injEq] at h
      rw [← h]
      exact key r0 h0 _
  | withText styles t =>
    simp only [Op.apply, StyledTextBuilder.Text, StyledText.With] at h
    cases h0 : s.ensureLineStart with
    | none => simp [h0] at h
    | some r0 =>
      simp only [h0, Option.map_some', Option.some.injEq] at h
      rw [← h]
      exact key r0 h0 _
  | space n =>
    simp only [Op.apply, StyledText.Space] at h
    cases h0 : s.ensureLineStart with
    | none => simp [h0] at h
    | some r0 =>
      simp only [h0, Option.some_bind] at h
      cases n with
      | nil =>
        simp only [Option.some.injEq] at h
        rw [← h]
        exact key r0 h0 _
      | cons n0 rest =>
        cases hrep : stringsRepeat " " n0 with
        | none => simp [hrep] at h
        | some sp =>
          simp only [hrep, Option.map_some', Option.some.injEq] at h
          rw [← h]
          exact key r0 h0 _
  | newline =>
    simp only [Op.apply, Option.some.injEq] at h
    rw [← h]
    by_cases hc : s.currLine = "" <;> simp [StyledText.flushesInResolution, StyledText.Newline, hc]
  | indent w =>
    simp only [Op.apply, Option.some.injEq] at h
    rw [← h]
    exact hs
  | string =>
    simp only [Op.apply, StyledText.String, Option.map_map] at h
    cases h0 : s.ensureLineStart with
    | none => simp [h0] at h
    | some r0 =>
      simp only [h0, Option.map_some', Function.comp, Option.some.injEq] at h
      rw [← h]
      have := ensureLineStart_pending s r0 h0
      by_cases hc : r0.currLine = "" <;>
        simp [StyledText.flushesInResolution, hc, not_lt.mpr this]

theorem run_total (R : Style → String → String) (ops : List Op) (s : StyledText)
    (hi : 0 ≤ s.indent) (hp : 0 ≤ s.pendingNewlines) (hs : s.flushesInResolution = false)
    (hops : ∀ op ∈ ops, op.nonnegArgs = true) :
    ∃ r, run R ops s = some r ∧ 0 ≤ r.indent ∧ 0 ≤ r.pendingNewlines ∧
      r.flushesInResolution = false := by
  induction ops generalizing s with
  | nil => exact ⟨s, rfl, hi, hp, hs⟩
  | cons op ops ih =>
    obtain ⟨r1, h1, hi1, hp1⟩ := apply_total R s op hi hp (hops op (List.mem_cons_self _ _))
    have hs1 := apply_keeps_invariant R s r1 op hs h1
    obtain ⟨r, hr, hir, hpr, hsr⟩ :=
      ih r1 hi1 hp1 hs1 (fun o ho => hops o (List.mem_cons_of_mem _ ho))
    exact ⟨r, by simp [run, h1, hr], hir, hpr, hsr⟩

/-! ## C14 -/

/-- C14: every chain of `Text`, `With(...).Text`, `Space`, `Newline`, `Indent` and `String`
calls with non-negative arguments on `Styled()` returns, and so does each of its initial
segments; in the state reached, `pendingNewlines > 0` implies that the current line is empty, so
the inner branch of `ensureLineStart` that flushes a non-empty current line is not taken by the
next call; a state that `ensureLineStart` has returned never takes it either. -/
theorem C14_pending_implies_empty_line (R : Style → String → String) (ops : List Op)
    (hops : ∀ op ∈ ops, op.nonnegArgs = true) :
    (∀ pre, pre <+: ops → ∃ s, run R pre Styled = some s ∧
        (0 < s.pendingNewlines → s.currLine = "") ∧ s.flushesInResolution = false) ∧
      (∀ s r : StyledText, s.ensureLineStart = some r → r.flushesInResolution = false) := by
  constructor
  · intro pre hpre
    obtain ⟨s, hs, _, _, hinv⟩ := run_total R pre Styled (le_refl _) (le_refl _) rfl
      (fun op hop => hops op (hpre.subset hop))
    refine ⟨s, hs, fun hp => ?_, hinv⟩
    by_contra hc
    simp [StyledText.flushesInResolution, hp, hc] at hinv
  · intro s r h
    have := ensureLineStart_pending s r h
    simp [StyledText.flushesInResolution, not_lt.mpr this]

/-- C14, witness: the chain of `TestChaining`. -/
theorem C14_pending_implies_empty_line_witness :
    (∀ pre, pre <+: [Op.withText [Bold] "Hello", Op.space [], Op.withText [Green] "World",
          Op.newline, Op.indent 2, Op.withText [Red] "Indented", Op.space [],
          Op.withText [Blue] "Text", Op.string] →
        ∃ s, run plainRender pre Styled = some s ∧
          (0 < s.pendingNewlines → s.currLine = "") ∧ s.flushesInResolution = false) ∧
      (∀ s r : StyledText, s.ensureLineStart = some r → r.flushesInResolution = false) :=
  C14_pending_implies_empty_line plainRender _ (by decide)

/-! ## C15 -/

/-- C15: in every buffer state with `pendingNewlines ≥ 0` and `indent ≥ 0`, a call that appends
content (`Text`, `With(...).Text` and so every colour or weight shortcut, `Space` with a
non-negative count) returns; the content is appended to the current line of the resolved state,
in which `pendingNewlines` is 0 and, if newlines were pending, the current line is the indent;
after the call `pendingNewlines` is 0. -/
theorem C15_append_after_resolution (R : Style → String → String) (s : StyledText) (op : Op)
    (hop : op.isAppend = true) (hargs : op.nonnegArgs = true)
    (hp : 0 ≤ s.pendingNewlines) (hi : 0 ≤ s.indent) :
    ∃ r0 r, s.ensureLineStart = some r0 ∧ r0.pendingNewlines = 0 ∧
      (0 < s.pendingNewlines → r0.currLine = spaces s.indent.toNat) ∧
      op.apply R s = some r ∧
      r = { r0 with currLine := r0.currLine ++ op.content R } ∧
      r.pendingNewlines = 0 := by
  obtain ⟨r0, h0, _, _, hpend, hcur, _⟩ := ensureLineStart_spec s hi
  refine ⟨r0, _, h0, hpend hp, hcur, ?_, rfl, hpend hp⟩
  rw [apply_append_eq R s op hop hargs, h0]
  rfl

/-- C15, witness: `Green("x")` on the buffer left by `Text("a").Newline().Indent(2)`. -/
theorem C15_append_after_resolution_witness :
    ∃ r0 r, (⟨["a"], "", 2, 1⟩ : StyledText).ensureLineStart = some r0 ∧
      r0.pendingNewlines = 0 ∧
      (0 < (⟨["a"], "", 2, 1⟩ : StyledText).pendingNewlines →
        r0.currLine = spaces (⟨["a"], "", 2, 1⟩ : StyledText).indent.toNat) ∧
      (Op.withText [Green] "x").apply ansiRender ⟨["a"], "", 2, 1⟩ = some r ∧
      r = { r0 with currLine := r0.currLine ++ (Op.withText [Green] "x").content ansiRender } ∧
      r.pendingNewlines = 0 :=
  C15_append_after_resolution ansiRender ⟨["a"], "", 2, 1⟩ (Op.withText [Green] "x") rfl rfl
    (by decide) (by decide)

/-! ## C16 -/

/-- C16: in every buffer state with `pendingNewlines ≥ 0` and `indent ≥ 0`, `String()` returns;
afterwards the current line is empty, `pendingNewlines` is 0 and `indent` is unchanged; the
returned string is the completed lines of the resulting state joined with the separator; these
are the completed lines of the resolved state followed by its current line when that line is
not empty. -/
theorem C16_string_state (s : StyledText) (hp : 0 ≤ s.pendingNewlines) (hi : 0 ≤ s.indent) :
    ∃ r0 out r, s.ensureLineStart = some r0 ∧ s.String = some (out, r) ∧
      r.currLine = "" ∧ r.pendingNewlines = 0 ∧ r.indent = s.indent ∧
      out = stringsJoin r.parts "\n" ∧
      r.parts = r0.parts ++ (if r0.currLine ≠ "" then [r0.currLine] else []) := by
  obtain ⟨r0, h0, _, _, hpend, _, _⟩ := ensureLineStart_spec s hi
  obtain ⟨r1, out, r, h1, hs, hparts, hcur, hind, hrp, hout⟩ := String_spec s hi
  rw [h0] at h1
  cases h1
  exact ⟨r0, out, r, h0, hs, hcur, by rw [hrp, hpend hp], hind, hout, hparts⟩

/-- C16, witness: the buffer left by `Text("a").Newline().Indent(2)`. -/
theorem C16_string_state_witness :
    ∃ r0 out r, (⟨["a"], "", 2, 1⟩ : StyledText).ensureLineStart = some r0 ∧
      (⟨["a"], "", 2, 1⟩ : StyledText).String = some (out, r) ∧
      r.currLine = "" ∧ r.pendingNewlines = 0 ∧
      r.indent = (⟨["a"], "", 2, 1⟩ : StyledText).indent ∧
      out = stringsJoin r.parts "\n" ∧
      r.parts = r0.parts ++ (if r0.currLine ≠ "" then [r0.currLine] else []) :=
  C16_string_state ⟨["a"], "", 2, 1⟩ (by decide) (by decide)

/-! ## C17 -/

theorem stringsRepeatAlloc_eq (limit : Nat) (c : Int) (hl : c ≤ (limit : Int)) :
    stringsRepeatAlloc limit " " c = stringsRepeat " " c := by
  have h1 : (" " : String).utf8ByteSize = 1 := by decide
  by_cases h0 : c < 0
  · simp [stringsRepeatAlloc, stringsRepeat, h0]
  · simp [stringsRepeatAlloc, stringsRepeat, h0, h1, hl]

theorem ensureLineStartAlloc_eq (limit : Nat) (s : StyledText) (hil : s.indent ≤ (limit : Int)) :
    s.ensureLineStartAlloc limit = s.ensureLineStart := by
  by_cases hc : s.currLine = "" <;>
    simp [StyledText.ensureLineStartAlloc, StyledText.ensureLineStart, hc,
      stringsRepeatAlloc_eq limit s.indent hil]

theorem ensureLineStart_indent (s r : StyledText) (h : s.ensureLineStart = some r) :
    r.indent = s.indent := by
  by_cases hp : 0 < s.pendingNewlines
  · by_cases hi : 0 ≤ s.indent
    · rw [ensureLineStart_of_pos s hp hi] at h
      cases h
      rfl
    · rw [ensureLineStart_panics s hp (not_le.mp hi)] at h
      cases h
  · rw [ensureLineStart_of_not_pos s (not_lt.mp hp)] at h
    cases h
    rfl

theorem builderTextAlloc_eq (limit : Nat) (R : Style → String → String) (s : StyledText)
    (st : Style) (t : String) (hil : s.indent ≤ (limit : Int)) :
    StyledTextBuilder.TextAlloc limit R ⟨s, st⟩ t = StyledTextBuilder.Text R ⟨s, st⟩ t := by
  simp [StyledTextBuilder.TextAlloc, StyledTextBuilder.Text, ensureLineStartAlloc_eq limit s hil]

theorem applyMachine_eq (limit : Nat) (R : Style → String → String) (s : StyledText) (op : Op)
    (hil : s.indent ≤ (limit : Int)) (hp : 0 ≤ s.pendingNewlines)
    (hpl : s.pendingNewlines < maxInt64) (hlim : op.withinLimit limit = true) :
    op.applyMachine limit R s = op.apply R s := by
  cases op with
  | text t =>
    simp only [Op.applyMachine, Op.apply, StyledText.TextAlloc, StyledText.Text,
      ensureLineStartAlloc_eq limit s hil]
    cases h0 : s.ensureLineStart with
    | none => rfl
    | some r0 =>
      have hr : r0.indent ≤ (limit : Int) := by rw [ensureLineStart_indent s r0 h0]; exact hil
      simp only [Option.some_bind, StyledText.With]
      exact builderTextAlloc_eq limit R r0 _ t hr
  | withText styles t => exact builderTextAlloc_eq limit R s _ t hil
  | space n =>
    simp only [Op.applyMachine, Op.apply, StyledText.SpaceAlloc, StyledText.Space,
      ensureLineStartAlloc_eq limit s hil]
    cases n with
    | nil => rfl
    | cons n0 rest =>
      have hn : n0 ≤ (limit : Int) := by simpa [Op.withinLimit] using hlim
      simp only [stringsRepeatAlloc_eq limit n0 hn]
  | newline =>
    simp only [Op.applyMachine, Op.apply]
    rw [NewlineInt64_eq s (by unfold minInt64; omega) hpl]
  | indent w => rfl
  | string =>
    simp only [Op.applyMachine, Op.apply, StyledText.StringAlloc, StyledText.String,
      ensureLineStartAlloc_eq limit s hil]

/-- C17, as stated, fails in two ways. At `pendingNewlines = math.MaxInt64`, a state with
`pendingNewlines ≥ 0`, `Newline()` wraps the counter to `math.MinInt64`, a negative value. On a
fresh buffer `Space(math.MaxInt64)`, a non-negative argument, panics in `strings.Repeat`, whose
result is beyond the largest length the allocator grants (2^48 bytes on a 64-bit Linux). -/
theorem C17_counterexample :
    (Op.newline.applyMachine 281474976710656 plainRender ⟨[], "", 0, maxInt64⟩ =
        some ⟨[], "", 0, minInt64⟩ ∧ minInt64 < 0) ∧
      ((Op.space [maxInt64]).nonnegArgs = true ∧
        (Op.space [maxInt64]).applyMachine 281474976710656 plainRender Styled = none) := by
  decide

/-- C17 (amended): in every buffer state with `0 ≤ indent`, `indent` within the allocation limit
of `strings.Repeat` and `0 ≤ pendingNewlines < math.MaxInt64`, every call with non-negative
arguments, the count of `Space` within the allocation limit (`Space(n)`, `Indent(w)`, `Newline`,
`Text`, `With(...).Text`, `String`), returns without a panic and leaves `indent ≥ 0` and
`pendingNewlines ≥ 0`; `String()` returns its string; `strings.Repeat` is called with the counts
`indent` and `n` only, neither negative nor beyond the limit. -/
theorem C17_no_panic_within_limits (limit : Nat) (R : Style → String → String) (s : StyledText)
    (op : Op) (hi : 0 ≤ s.indent) (hil : s.indent ≤ (limit : Int)) (hp : 0 ≤ s.pendingNewlines)
    (hpl : s.pendingNewlines < maxInt64) (hargs : op.nonnegArgs = true)
    (hlim : op.withinLimit limit = true) :
    (∃ r, op.applyMachine limit R s = some r ∧ 0 ≤ r.indent ∧ 0 ≤ r.pendingNewlines) ∧
      (∃ out r, s.StringAlloc limit = some (out, r) ∧ 0 ≤ r.indent ∧ 0 ≤ r.pendingNewlines) ∧
      (∃ line, stringsRepeatAlloc limit " " s.indent = some line) := by
  refine ⟨?_, ?_, ?_⟩
  · rw [applyMachine_eq limit R s op hil hp hpl hlim]
    exact apply_total R s op hi hp hargs
  · obtain ⟨r0, h0, _, _, hpend, _, _⟩ := ensureLineStart_spec s hi
    obtain ⟨r1, out, r, h1, hs, _, _, hind, hrp, _⟩ := String_spec s hi
    rw [h0] at h1
    cases h1
    refine ⟨out, r, ?_, by rw [hind]; exact hi, by rw [hrp, hpend hp]⟩
    rw [← hs]
    simp only [StyledText.StringAlloc, StyledText.String, ensureLineStartAlloc_eq limit s hil]
  · rw [stringsRepeatAlloc_eq limit s.indent hil]
    exact ⟨_, stringsRepeat_of_nonneg s.indent hi⟩

/-- C17, witness: `Space(3)` on the buffer left by `Text("a").Newline().Indent(2)`, with the
allocation limit of a 64-bit Linux. -/
theorem C17_no_panic_within_limits_witness :
    (∃ r, (Op.space [3]).applyMachine 281474976710656 plainRender ⟨["a"], "", 2, 1⟩ = some r ∧
        0 ≤ r.indent ∧ 0 ≤ r.pendingNewlines) ∧
      (∃ out r, (⟨["a"], "", 2, 1⟩ : StyledText).StringAlloc 281474976710656 = some (out, r) ∧
        0 ≤ r.indent ∧ 0 ≤ r.pendingNewlines) ∧
      (∃ line, stringsRepeatAlloc 281474976710656 " " (⟨["a"], "", 2, 1⟩ : StyledText).indent =
        some line) :=
  C17_no_panic_within_limits 281474976710656 plainRender ⟨["a"], "", 2, 1⟩ (Op.space [3])
    (by decide) (by decide) (by decide) (by decide) rfl (by decide)

/-! ## C18 -/

/-- C18, as stated, fails for a text that the renderer changes: under a renderer that converts
tabs, as lipgloss does, `Text("a\t")`, `String()`, `Text("b")`, `String()` makes the second
`String()` return `a`, four spaces, a separator and `b`; the tab of the first text is not
kept. -/
theorem C18_counterexample :
    output tabRender [Op.text "a\t", Op.string, Op.text "b"] = some "a    \nb" ∧
      output tabRender [Op.text "a\t", Op.string, Op.text "b"] ≠
        some ("a\t" ++ "\n" ++ "b") := by
  decide

/-- C18 (amended): for all non-empty texts `a` and `b` that the renderer returns unchanged under
the empty style, on a fresh buffer `Text(a)`, `String()`, `Text(b)`, `String()` makes the first
`String()` return `a` and the second return `a`, a separator and `b`, whereas
`Text(a).Text(b).String()` returns `a` followed by `b`: the intermediate `String()` ends the
line in progress. -/
theorem C18_string_ends_line (R : Style → String → String) (a b : String)
    (ha : a ≠ "") (hb : b ≠ "") (hRa : R NewStyle a = a) (hRb : R NewStyle b = b) :
    output R [Op.text a] = some a ∧
      output R [Op.text a, Op.string, Op.text b] = some (a ++ "\n" ++ b) ∧
      output R [Op.text a, Op.text b] = some (a ++ b) := by
  have hab : a ++ b ≠ "" := by simp [str_append_eq_empty, ha]
  have h1 : run R [Op.text a] Styled = some ⟨[], a, 0, 0⟩ := by
    simp [run, Op.apply, Text_fresh, hRa]
  have h2 : run R [Op.text a, Op.string, Op.text b] Styled = some ⟨[a], b, 0, 0⟩ := by
    simp only [run, Op.apply, Text_fresh, hRa, Option.some_bind]
    rw [String_of_resolved ⟨[], a, 0, 0⟩ (le_refl _)]
    simp only [Option.map_some', Option.some_bind, ne_eq, ha, not_false_eq_true, if_true,
      List.nil_append]
    rw [Text_of_resolved R ⟨[a], "", 0, 0⟩ b (le_refl _)]
    simp [hRb]
  have h3 : run R [Op.text a, Op.text b] Styled = some ⟨[], a ++ b, 0, 0⟩ := by
    simp only [run, Op.apply, Text_fresh, hRa, Option.some_bind]
    rw [Text_of_resolved R ⟨[], a, 0, 0⟩ b (le_refl _)]
    simp [hRb]
  refine ⟨?_, ?_, ?_⟩
  · rw [output, outputFrom, h1, Option.some_bind, String_of_resolved ⟨[], a, 0, 0⟩ (le_refl _)]
    simp [ha, stringsJoin]
  · rw [output, outputFrom, h2, Option.some_bind, String_of_resolved ⟨[a], b, 0, 0⟩ (le_refl _)]
    simp [hb, stringsJoin]
  · rw [output, outputFrom, h3, Option.some_bind,
      String_of_resolved ⟨[], a ++ b, 0, 0⟩ (le_refl _)]
    simp [hab, stringsJoin]

/-- C18, witness: `a = "x"`, `b = "y"`. -/
theorem C18_string_ends_line_witness :
    output plainRender [Op.text "x"] = some "x" ∧
      output plainRender [Op.text "x", Op.string, Op.text "y"] = some ("x" ++ "\n" ++ "y") ∧
      output plainRender [Op.text "x", Op.text "y"] = some ("x" ++ "y") :=
  C18_string_ends_line plainRender "x" "y" (by decide) (by decide) rfl rfl

/-! ## C19 -/

theorem stringsJoin_blank (j : Nat) : stringsJoin (List.replicate (j + 1) "") "\n" = seps j := by
  have h := stringsJoin_append_blank [""] j (by simp)
  rw [List.replicate_succ]
  simpa [stringsJoin] using h

/-- With no completed line and `k ≥ 1` newlines pending, content `X` appended under indent `n`
flattens to `k` separators, the indent and `X`, provided the new line is not empty. -/
theorem outputFrom_pending_fresh (R : Style → String → String) (X : String) (k n : Nat)
    (hk : 1 ≤ k) (hX : spaces n ++ X ≠ "") (hR : R NewStyle X = X) :
    outputFrom R ⟨[], "", n, k⟩ [Op.text X] = some (seps k ++ (spaces n ++ X)) := by
  obtain ⟨j, rfl⟩ : ∃ j, k = j + 1 := ⟨k - 1, by omega⟩
  have hp : (0 : Int) < ((⟨[], "", n, (j + 1 : Nat)⟩ : StyledText)).pendingNewlines := by
    show (0 : Int) < ((j + 1 : Nat) : Int)
    omega
  have hi : (0 : Int) ≤ ((⟨[], "", n, (j + 1 : Nat)⟩ : StyledText)).indent := by
    show (0 : Int) ≤ (n : Int)
    omega
  simp only [outputFrom, run, Op.apply, Text_eq, ensureLineStart_of_pos _ hp hi, Option.map_some',
    Option.some_bind, hR]
  rw [String_of_resolved _ (le_refl _)]
  simp only [Option.map_some', ne_eq, not_true_eq_false, if_false, Int.toNat_ofNat, hX,
    not_false_eq_true, if_true, List.nil_append]
  rw [stringsJoin_append_singleton _ _ _ (by simp), stringsJoin_blank, seps_succ]

/-- C19, as stated, fails in two ways. For indent 0 and an empty text, on a fresh buffer
`Newline()` and `Text("")` flatten to the empty string, no separator, where the claim gives
`k = 1`. Under a renderer that converts tabs, as lipgloss does,
`Indent(1).Newline().Text("\tb")` flattens to a separator, five spaces and `b`: the tab of the
text is not kept. -/
theorem C19_counterexample :
    (output plainRender (Op.indent 0 :: (List.replicate 1 Op.newline ++ [Op.text ""])) =
        some "" ∧
      output plainRender (Op.indent 0 :: (List.replicate 1 Op.newline ++ [Op.text ""])) ≠
        some (seps 1 ++ spaces (0 : Int).toNat ++ "")) ∧
    (output tabRender (Op.indent 1 :: (List.replicate 1 Op.newline ++ [Op.text "\tb"])) =
        some "\n     b" ∧
      output tabRender (Op.indent 1 :: (List.replicate 1 Op.newline ++ [Op.text "\tb"])) ≠
        some (seps 1 ++ spaces (1 : Int).toNat ++ "\tb")) := by
  decide

/-- C19 (amended): on a fresh buffer, for every `k ≥ 1`, every `n ≥ 0` and every text `B` left
unchanged by the renderer under the empty style, with `n > 0` or `B` non-empty, `Indent(n)`,
`k` calls of `Newline()`, `Text(B)` and `String()` return exactly `k` separators, `n` spaces
and `B`; `Styled().Newline().String()` returns the empty string, as a fresh buffer does. -/
theorem C19_newlines_on_fresh_buffer (R : Style → String → String) (k : Nat) (n : Int)
    (B : String) (hk : 1 ≤ k) (hn : 0 ≤ n) (hB : 0 < n ∨ B ≠ "") (hR : R NewStyle B = B) :
    output R (Op.indent n :: (List.replicate k Op.newline ++ [Op.text B])) =
        some (seps k ++ spaces n.toNat ++ B) ∧
      output R [Op.newline] = some "" ∧ output R [] = some "" := by
  obtain ⟨m, rfl⟩ : ∃ m : Nat, n = (m : Int) := ⟨n.toNat, (Int.toNat_of_nonneg hn).symm⟩
  have hX : spaces m ++ B ≠ "" := by
    rw [Ne, str_append_eq_empty, spaces_eq_empty]
    rintro ⟨rfl, rfl⟩
    simp at hB
  refine ⟨?_, rfl, rfl⟩
  have h1 : run R (Op.indent (m : Int) :: List.replicate k Op.newline) Styled =
      some ⟨[], "", (m : Int), (k : Int)⟩ := by
    have h := run_newlines R k [] ⟨[], "", (m : Int), 0⟩ rfl
    simp only [List.append_nil] at h
    simp only [run, Op.apply, Option.some_bind]
    show run R (List.replicate k Op.newline) ⟨[], "", (m : Int), 0⟩ = _
    rw [h]
    simp [run]
  have h2 := outputFrom_append R (Op.indent (m : Int) :: List.replicate k Op.newline)
    [Op.text B] Styled
  rw [List.cons_append] at h2
  rw [output, h2, h1, Option.some_bind, outputFrom_pending_fresh R B k m hk hX hR]
  simp [str_append_assoc]

/-- C19, witness: `Indent(3).Newline().Newline().Text("b")`. -/
theorem C19_newlines_on_fresh_buffer_witness :
    output plainRender (Op.indent 3 :: (List.replicate 2 Op.newline ++ [Op.text "b"])) =
        some (seps 2 ++ spaces (3 : Int).toNat ++ "b") ∧
      output plainRender [Op.newline] = some "" ∧ output plainRender [] = some "" :=
  C19_newlines_on_fresh_buffer plainRender 2 3 "b" (by decide) (by decide)
    (Or.inl (by decide)) rfl

/-! ## C20 -/

theorem ensureLineStart_prefix (s r : StyledText) (h : s.ensureLineStart = some r) :
    s.parts <+: r.parts := by
  by_cases hp : 0 < s.pendingNewlines
  · by_cases hi : 0 ≤ s.indent
    · rw [ensureLineStart_of_pos s hp hi] at h
      cases h
      by_cases hc : s.currLine = "" <;> simp [hc, List.append_assoc]
    · rw [ensureLineStart_panics s hp (not_le.mp hi)] at h
      cases h
  · rw [ensureLineStart_of_not_pos s (not_lt.mp hp)] at h
    cases h
    exact List.prefix_refl _

/-- C20: for every buffer state and every call (`Text`, `With(...).Text`, `Space`, `Newline`,
`Indent`, `String`), either the call returns and the completed lines before the call are an
initial segment of the completed lines after it, or the call panics, which requires a negative
indent or a negative argument. -/
theorem C20_parts_append_only (R : Style → String → String) (s : StyledText) (op : Op) :
    (∃ r, op.apply R s = some r ∧ s.parts <+: r.parts) ∨
      (op.apply R s = none ∧ (s.indent < 0 ∨ op.nonnegArgs = false)) := by
  cases h0 : s.ensureLineStart with
  | none =>
    have hneg : s.indent < 0 := ((ensureLineStart_eq_none s).mp h0).2
    cases op with
    | text t => exact Or.inr ⟨by simp [Op.apply, Text_eq, h0], Or.inl hneg⟩
    | withText styles t =>
      exact Or.inr ⟨by simp [Op.apply, StyledTextBuilder.Text, StyledText.With, h0], Or.inl hneg⟩
    | space n => exact Or.inr ⟨by simp [Op.apply, StyledText.Space, h0], Or.inl hneg⟩
    | newline =>
      refine Or.inl ⟨s.Newline, rfl, ?_⟩
      by_cases hc : s.currLine = "" <;> simp [StyledText.Newline, hc]
    | indent w => exact Or.inl ⟨s.Indent w, rfl, List.prefix_refl _⟩
    | string => exact Or.inr ⟨by simp [Op.apply, StyledText.String, h0], Or.inl hneg⟩
  | some r0 =>
    have hpre := ensureLineStart_prefix s r0 h0
    cases op with
    | text t =>
      exact Or.inl ⟨{ r0 with currLine := r0.currLine ++ R NewStyle t },
        by simp only [Op.apply, Text_eq, h0, Option.map_some'], hpre⟩
    | withText styles t =>
      exact Or.inl ⟨{ r0 with currLine := r0.currLine ++ R (styles.foldl Style.Inherit NewStyle) t },
        by simp only [Op.apply, StyledTextBuilder.Text, StyledText.With, h0, Option.map_some'],
        hpre⟩
    | space n =>
      cases n with
      | nil =>
        exact Or.inl ⟨{ r0 with currLine := r0.currLine ++ " " },
          by simp only [Op.apply, StyledText.Space, h0, Option.some_bind], hpre⟩
      | cons n0 rest =>
        by_cases hn : 0 ≤ n0
        · exact Or.inl ⟨{ r0 with currLine := r0.currLine ++ spaces n0.toNat }, by
            simp only [Op.apply, StyledText.Space, h0, Option.some_bind,
              stringsRepeat_of_nonneg n0 hn, Option.map_some'], hpre⟩
        · exact Or.inr ⟨by
            simp [Op.apply, StyledText.Space, h0, stringsRepeat_of_neg _ n0 (not_le.mp hn)],
            Or.inr (by simp [Op.nonnegArgs, hn])⟩
    | newline =>
      refine Or.inl ⟨s.Newline, rfl, ?_⟩
      by_cases hc : s.currLine = "" <;> simp [StyledText.Newline, hc]
    | indent w => exact Or.inl ⟨s.Indent w, rfl, List.prefix_refl _⟩
    | string =>
      refine Or.inl ⟨if r0.currLine ≠ "" then
          { r0 with parts := r0.parts ++ [r0.currLine], currLine := "" } else r0, by
        simp only [Op.apply, StyledText.String, h0, Option.map_some'], ?_⟩
      refine hpre.trans ?_
      by_cases hc : r0.currLine = "" <;> simp [hc]

end Tinge
